import Mathlib

set_option autoImplicit false
set_option maxHeartbeats 1000000
set_option maxRecDepth 10000

/-!
Verification of the asset-localizer pipeline (`tools/mirror_webflow.py`) and the
branding rewriter (`tools/remove_branding.py`).

Text is modelled as `List Char` (`Str` below).  Python string primitives used by
the scripts (`str.replace`, `str.lower`, slicing, `sorted`, `dict` insertion
order) are embedded as executable Lean functions with the same semantics, and
the script functions are translated definition by definition.
-/

namespace Mirror

abbrev Str := List Char

/-- Model of Python `str.replace` for a non-empty pattern: scan left to
right, replace every non-overlapping occurrence.  The `Nat` argument is fuel
(enough when it bounds the text length); structural recursion keeps the
function kernel-reducible. -/
def replaceCoreAux (needle repl : Str) : Nat → Str → Str
  | 0, t => t
  | _ + 1, [] => []
  | f + 1, c :: rest =>
    if needle.isPrefixOf (c :: rest) ∧ needle ≠ [] then
      repl ++ replaceCoreAux needle repl f (rest.drop (needle.length - 1))
    else
      c :: replaceCoreAux needle repl f rest

def replaceCore (needle repl t : Str) : Str := replaceCoreAux needle repl t.length t

/-- Model of Python `s.replace(old, new)` (including the empty-pattern case,
where Python interleaves `new` between all characters). -/
def pyReplace (s old new : Str) : Str :=
  if old = [] then new ++ s.foldr (fun c acc => c :: (new ++ acc)) [] else replaceCore old new s

/-- Python `s.lower()` restricted to ASCII (all strings handled by the scripts
are ASCII). -/
def lowerStr (s : Str) : Str := s.map Char.toLower

/-- Lexicographic (code-point) order on strings, as used by Python `sorted`. -/
def strLeB : Str → Str → Bool
  | [], _ => true
  | _ :: _, [] => false
  | a :: as, b :: bs =>
    if a.toNat < b.toNat then true
    else if b.toNat < a.toNat then false
    else strLeB as bs

def insertSorted (x : Str) : List Str → List Str
  | [] => [x]
  | y :: ys => if strLeB x y then x :: y :: ys else y :: insertSorted x ys

/-- Model of Python `sorted` on a list of strings (insertion sort; same
ascending code-point order). -/
def sortStrs (l : List Str) : List Str := l.foldr insertSorted []

/-- Collapse duplicates, modelling the `set(...)` the script builds before
sorting (order of the result is irrelevant because it is always sorted). -/
def dedupStrs : List Str → List Str
  | [] => []
  | x :: xs => if x ∈ xs then dedupStrs xs else x :: dedupStrs xs

/-- Python `dict` assignment `d[k] = v`: update in place if the key is present
(keeping its position), otherwise append; iteration follows insertion order. -/
def dictInsert (k v : Str) : List (Str × Str) → List (Str × Str)
  | [] => [(k, v)]
  | (k', v') :: rest => if k' = k then (k, v) :: rest else (k', v') :: dictInsert k v rest

def dictFind (k : Str) : List (Str × Str) → Option Str
  | [] => none
  | (k', v') :: rest => if k' = k then some v' else dictFind k rest

def dictKeys (d : List (Str × Str)) : List Str := d.map Prod.fst

/-! ### SHA-256 (used by `_safe_filename_from_url` through `hashlib.sha256`) -/

def utf8EncodeChar (c : Char) : List Nat :=
  let n := c.toNat
  if n < 128 then [n]
  else if n < 2048 then [192 ||| (n >>> 6), 128 ||| (n &&& 63)]
  else if n < 65536 then
    [224 ||| (n >>> 12), 128 ||| ((n >>> 6) &&& 63), 128 ||| (n &&& 63)]
  else
    [240 ||| (n >>> 18), 128 ||| ((n >>> 12) &&& 63), 128 ||| ((n >>> 6) &&& 63),
     128 ||| (n &&& 63)]

/-- Python `s.encode("utf-8")`. -/
def utf8Encode (s : Str) : List Nat := (s.map utf8EncodeChar).flatten

def w32 (n : Nat) : Nat := n % 4294967296

def rotr (k x : Nat) : Nat := w32 ((x >>> k) ||| (x <<< (32 - k)))

def wnot (x : Nat) : Nat := 4294967295 - w32 x

def bsig0 (x : Nat) : Nat := rotr 2 x ^^^ rotr 13 x ^^^ rotr 22 x

def bsig1 (x : Nat) : Nat := rotr 6 x ^^^ rotr 11 x ^^^ rotr 25 x

def ssig0 (x : Nat) : Nat := rotr 7 x ^^^ rotr 18 x ^^^ (x >>> 3)

def ssig1 (x : Nat) : Nat := rotr 17 x ^^^ rotr 19 x ^^^ (x >>> 10)

def chFn (x y z : Nat) : Nat := (x &&& y) ^^^ (wnot x &&& z)

def majFn (x y z : Nat) : Nat := (x &&& y) ^^^ (x &&& z) ^^^ (y &&& z)

def sha256K : List Nat :=
  [1116352408, 1899447441, 3049323471, 3921009573,
   961987163, 1508970993, 2453635748, 2870763221,
   3624381080, 310598401, 607225278, 1426881987,
   1925078388, 2162078206, 2614888103, 3248222580,
   3835390401, 4022224774, 264347078, 604807628,
   770255983, 1249150122, 1555081692, 1996064986,
   2554220882, 2821834349, 2952996808, 3210313671,
   3336571891, 3584528711, 113926993, 338241895,
   666307205, 773529912, 1294757372, 1396182291,
   1695183700, 1986661051, 2177026350, 2456956037,
   2730485921, 2820302411, 3259730800, 3345764771,
   3516065817, 3600352804, 4094571909, 275423344,
   430227734, 506948616, 659060556, 883997877,
   958139571, 1322822218, 1537002063, 1747873779,
   1955562222, 2024104815, 2227730452, 2361852424,
   2428436474, 2756734187, 3204031479, 3329325298]

def sha256H0 : List Nat :=
  [1779033703, 3144134277, 1013904242, 2773480762,
   1359893119, 2600822924, 528734635, 1541459225]

def toBytesBE (k n : Nat) : List Nat :=
  (List.range k).map (fun i => (n >>> (8 * (k - 1 - i))) &&& 255)

def sha256Pad (msg : List Nat) : List Nat :=
  let len := msg.length
  let padZeros := (119 - len % 64) % 64
  msg ++ [128] ++ List.replicate padZeros 0 ++ toBytesBE 8 (len * 8)

def bytesToWords : List Nat → List Nat
  | a :: b :: c :: d :: rest => ((a <<< 24) ||| (b <<< 16) ||| (c <<< 8) ||| d) :: bytesToWords rest
  | _ => []

def chunks16Aux : Nat → List Nat → List (List Nat)
  | 0, _ => []
  | _ + 1, [] => []
  | f + 1, w :: rest => (w :: rest).take 16 :: chunks16Aux f (rest.drop 15)

def chunks16 (l : List Nat) : List (List Nat) := chunks16Aux l.length l

/-- Message-schedule extension: given the sliding window of the previous 16
words, produce the next `n` words. -/
def schedRounds : Nat → List Nat → List Nat
  | 0, _ => []
  | n + 1, win =>
    let wt := (ssig1 (win.getD 14 0) + win.getD 9 0 + ssig0 (win.getD 1 0) + win.getD 0 0) %
      4294967296
    wt :: schedRounds n (win.drop 1 ++ [wt])

structure Hash8 where
  a : Nat
  b : Nat
  c : Nat
  d : Nat
  e : Nat
  f : Nat
  g : Nat
  h : Nat
deriving Repr, DecidableEq

def compressStep (st : Hash8) (kw : Nat × Nat) : Hash8 :=
  let t1 := (st.h + bsig1 st.e + chFn st.e st.f st.g + kw.1 + kw.2) % 4294967296
  let t2 := (bsig0 st.a + majFn st.a st.b st.c) % 4294967296
  ⟨(t1 + t2) % 4294967296, st.a, st.b, st.c, (st.d + t1) % 4294967296, st.e, st.f, st.g⟩

def hash8OfList (l : List Nat) : Hash8 :=
  ⟨l.getD 0 0, l.getD 1 0, l.getD 2 0, l.getD 3 0, l.getD 4 0, l.getD 5 0, l.getD 6 0, l.getD 7 0⟩

def hash8ToList (st : Hash8) : List Nat := [st.a, st.b, st.c, st.d, st.e, st.f, st.g, st.h]

def processChunk (acc : List Nat) (chunk : List Nat) : List Nat :=
  let sched := chunk ++ schedRounds 48 chunk
  let st := (sha256K.zip sched).foldl compressStep (hash8OfList acc)
  (acc.zip (hash8ToList st)).map (fun p => (p.1 + p.2) % 4294967296)

def sha256Words (msg : List Nat) : List Nat :=
  (chunks16 (bytesToWords (sha256Pad msg))).foldl processChunk sha256H0

def hexDigit (n : Nat) : Char :=
  if n < 10 then Char.ofNat (48 + n) else Char.ofNat (87 + n)

def toHexWord (n : Nat) : Str :=
  (List.range 8).map (fun i => hexDigit ((n >>> (4 * (7 - i))) &&& 15))

/-- Python `hashlib.sha256(b).hexdigest()` (lowercase hex). -/
def sha256Hexdigest (msg : List Nat) : Str := ((sha256Words msg).map toHexWord).flatten

/-- Python `hashlib.sha256(s.encode("utf-8")).hexdigest()`. -/
def sha256HexOfStr (s : Str) : Str := sha256Hexdigest (utf8Encode s)

/-! ### Model of `urllib.parse.urlparse`

Only the fields the scripts consult (`scheme`, `hostname`, `path`, `query`) are
modelled.  The model follows CPython `urlsplit`: optional scheme (letters,
digits, `+`, `-`, `.`; first character a letter; lowercased), `//netloc` up to
the first `/?#`, then the fragment is split off at the first `#` and the query
at the first `?`.  `urlsplit` raises `ValueError` on an unbalanced bracket in
the netloc; this is modelled by returning `none`.  (The control-character
stripping CPython applies first is not modelled; the scripts only feed the
parser strings without control characters, which their extraction regexes
guarantee.) -/

structure UrlParts where
  scheme : Str
  netloc : Str
  path : Str
  params : Str
  query : Str
  fragment : Str
deriving Repr, DecidableEq

def splitAtFirst (c : Char) (s : Str) : Option (Str × Str) :=
  match s.findIdx? (· = c) with
  | none => none
  | some i => some (s.take i, s.drop (i + 1))

def isSchemeChar (c : Char) : Bool :=
  c.isAlpha || c.isDigit || c = '+' || c = '-' || c = '.'

def schemeSplit (url : Str) : Str × Str :=
  match splitAtFirst ':' url with
  | none => ([], url)
  | some (before, after) =>
    if before ≠ [] ∧ (match before with | c :: _ => c.isAlpha | [] => false) = true ∧
        before.all isSchemeChar then
      (lowerStr before, after)
    else ([], url)

def netlocSplit (rest : Str) : Str × Str :=
  match rest with
  | '/' :: '/' :: r =>
    match r.findIdx? (fun c => c = '/' || c = '?' || c = '#') with
    | none => (r, [])
    | some i => (r.take i, r.drop i)
  | _ => ([], rest)

def lastIdxOf (c : Char) (s : Str) : Option Nat :=
  match s.reverse.findIdx? (· = c) with
  | none => none
  | some ri => some (s.length - 1 - ri)

/-- Schemes for which `urlparse` separates `;params` from the last path
segment (CPython `uses_params`, including the empty scheme). -/
def usesParams : List Str :=
  ["", "ftp", "hdl", "prospero", "http", "imap", "https", "shttp", "rtsp", "rtspu",
   "sip", "sips", "mms", "sftp", "tel"].map String.toList

/-- CPython `urllib.parse._splitparams`. -/
def splitparams (url : Str) : Str × Str :=
  match lastIdxOf '/' url with
  | some s2 =>
    match (url.drop s2).findIdx? (· = ';') with
    | none => (url, [])
    | some j => (url.take (s2 + j), url.drop (s2 + j + 1))
  | none =>
    match splitAtFirst ';' url with
    | none => (url, [])
    | some p => p

def urlparse? (url : Str) : Option UrlParts :=
  let (scheme, rest) := schemeSplit url
  let (netloc, rest2) := netlocSplit rest
  if ('[' ∈ netloc ∧ ']' ∉ netloc) ∨ (']' ∈ netloc ∧ '[' ∉ netloc) then none
  else
    let fsplit := match splitAtFirst '#' rest2 with
      | none => (rest2, ([] : Str))
      | some p => p
    let qsplit := match splitAtFirst '?' fsplit.1 with
      | none => (fsplit.1, ([] : Str))
      | some p => p
    let psplit := if scheme ∈ usesParams ∧ ';' ∈ qsplit.1 then splitparams qsplit.1
      else (qsplit.1, [])
    some ⟨scheme, netloc, psplit.1, psplit.2, qsplit.2, fsplit.2⟩

/-- CPython `urlparse(...).hostname or ""`: the part of the netloc after the
last `@`, bracket form for IPv6, otherwise up to the first `:`, lowercased. -/
def hostnameOf (netloc : Str) : Str :=
  let hostinfo := match netloc.reverse.findIdx? (· = '@') with
    | none => netloc
    | some i => netloc.drop (netloc.length - i)
  let h := if '[' ∈ hostinfo then
      let bracketed := hostinfo.drop (hostinfo.findIdx (· = '[') + 1)
      match splitAtFirst ']' bracketed with
      | none => bracketed
      | some p => p.1
    else match splitAtFirst ':' hostinfo with
      | none => hostinfo
      | some p => p.1
  lowerStr h

/-! ### Models of `pathlib.PurePosixPath.name` / `.suffix` and `os.path.splitext` -/

/-- `pathlib.PurePosixPath(p).name`: the last path component, after dropping
empty components and `.` components (pathlib normalizes both away). -/
def pathName (p : Str) : Str :=
  ((p.splitOn '/').filter (fun s => s ≠ [] ∧ s ≠ ['.'])).getLastD []

/-- `pathlib.PurePosixPath(p).suffix`: the part of the name from its last dot,
provided that dot is neither the first nor the last character of the name. -/
def pathSuffix (p : Str) : Str :=
  let name := pathName p
  match lastIdxOf '.' name with
  | none => []
  | some i => if 0 < i ∧ i + 1 < name.length then name.drop i else []

/-- `posixpath.splitext`: split at the last dot after the last `/`, unless all
characters of the file name up to that dot are dots. -/
def splitextP (p : Str) : Str × Str :=
  match lastIdxOf '.' p with
  | none => (p, [])
  | some d =>
    let startIdx := match lastIdxOf '/' p with
      | none => 0
      | some s2 => s2 + 1
    let sepOk := match lastIdxOf '/' p with
      | none => true
      | some s2 => decide (s2 < d)
    if sepOk && (List.range' startIdx (d - startIdx)).any (fun k => p.getD k '.' ≠ '.') then
      (p.take d, p.drop d)
    else (p, [])

/-! ### `_is_asset_url` and `_safe_filename_from_url` (mirror_webflow.py) -/

def SKIP_HOSTS : List Str :=
  ["www.w3.org".toList, "w3.org".toList, "www.linkedin.com".toList]

def ASSET_EXTENSIONS : List Str :=
  [".css", ".js", ".png", ".jpg", ".jpeg", ".gif", ".svg", ".webp", ".ico", ".woff",
   ".woff2", ".ttf", ".otf", ".eot", ".mp4", ".webm", ".pdf", ".json"].map String.toList

def siteHost : Str := "videa-saversion.webflow.io".toList

/-- `_is_asset_url` (mirror_webflow.py, lines 136-159). -/
def is_asset_url (url : Str) : Bool :=
  match urlparse? url with
  | none => false
  | some p =>
    if ¬(p.scheme = "http".toList ∨ p.scheme = "https".toList) then false
    else
      let host := hostnameOf p.netloc
      if host = [] ∨ host ∈ SKIP_HOSTS then false
      else if siteHost.isSuffixOf host then false
      else decide (lowerStr (pathSuffix p.path) ∈ ASSET_EXTENSIONS)

def isSafeFilenameChar (c : Char) : Bool :=
  c.isAlpha || c.isDigit || c = '.' || c = '_' || c = '-'

/-- The sanitized base name: `re.sub(r"[^A-Za-z0-9._-]", "_", name)`. -/
def sanitizeName (s : Str) : Str :=
  s.map (fun c => if isSafeFilenameChar c then c else '_')

/-- The name after the optional query-hash splice, before length truncation
(mirror_webflow.py, lines 173-176). -/
def splicedName (name1 query : Str) : Str :=
  if query ≠ [] then
    let qhash := (sha256HexOfStr query).take 8
    let se := splitextP name1
    if se.2 ≠ [] then se.1 ++ ('.' :: qhash) ++ se.2 else se.1 ++ ('.' :: qhash)
  else name1

/-- `_safe_filename_from_url` (mirror_webflow.py, lines 162-182).  In Python a
`ValueError` from `urlparse` would propagate; the pipeline only reaches this
function for URLs `_is_asset_url` accepted, where parsing succeeds, so the
model substitutes an all-empty parse in that unreachable case. -/
def safe_filename_from_url (url : Str) : Str :=
  let p := (urlparse? url).getD ⟨[], [], [], [], [], []⟩
  let name0 := pathName p.path
  if name0 = [] then (sha256HexOfStr url).take 16
  else
    let name2 := splicedName (sanitizeName name0) p.query
    if name2.length > 180 then
      let be := splitextP name2
      be.1.take 150 ++ be.2
    else name2

/-- Modelled from the spec (the C3 reference algorithm for filename
derivation): take the final path segment of the URL as the base name; if that
segment is empty, return a 16-character lowercase hex digest of the whole
URL; replace every character outside `[A-Za-z0-9._-]` with `_`; if a query
string is present, splice an 8-character hex digest of the query string (as a
dot-separated infix) between the stem and the extension, or append it if
there is no extension; if the resulting name exceeds 180 characters,
truncate the stem to 150 characters and keep the extension. -/
def safe_filename_reference (url : Str) : Str :=
  let p := (urlparse? url).getD ⟨[], [], [], [], [], []⟩
  let base := pathName p.path
  if base = [] then (sha256HexOfStr url).take 16
  else
    let spliced :=
      if p.query = [] then sanitizeName base
      else
        let se := splitextP (sanitizeName base)
        se.1 ++ '.' :: ((sha256HexOfStr p.query).take 8 ++ se.2)
    if spliced.length ≤ 180 then spliced
    else (splitextP spliced).1.take 150 ++ (splitextP spliced).2

/-- The two URLs of the C3 counterexample: identical but for their query
strings, with a 170-character stem, so that the spliced names exceed 180
characters and the truncation cuts the query digest away. -/
def c3Url1 : Str := "https://h/".toList ++ List.replicate 170 'a' ++ ".png?v=1".toList

def c3Url2 : Str := "https://h/".toList ++ List.replicate 170 'a' ++ ".png?v=2".toList

/-! ### URL extraction (`URL_RE`, `_extract_urls_from_text`, `CSS_URL_RE`) -/

/-- Python `\s` on the ASCII range (the scripts only process ASCII text). -/
def isPyWhitespace (c : Char) : Bool :=
  c = ' ' || c = '\t' || c = '\n' || c = '\r' || c = '\x0b' || c = '\x0c'

/-- The terminator class of `URL_RE = https?://[^\"'<>\s)]+`: a match runs up
to a double quote, single quote, angle bracket, closing parenthesis or
whitespace. -/
def isUrlTermChar (c : Char) : Bool :=
  c = '"' || c = '\'' || c = '<' || c = '>' || c = ')' || isPyWhitespace c

def httpsPre : Str := "https://".toList

def httpPre : Str := "http://".toList

/-- One attempted match of `URL_RE` anchored at the start of `t`: the scheme
literal followed by a non-empty maximal run of non-terminator characters.
Returns the match and the remaining text. -/
def urlMatchAt (pre t : Str) : Option (Str × Str) :=
  if pre.isPrefixOf t then
    let afterScheme := t.drop pre.length
    let run := afterScheme.takeWhile (fun c => !isUrlTermChar c)
    if run = [] then none
    else some (pre ++ run, afterScheme.dropWhile (fun c => !isUrlTermChar c))
  else none

/-- `re.findall(URL_RE, t)`: left-to-right, non-overlapping, greedy. -/
def urlScanAux : Nat → Str → List Str
  | 0, _ => []
  | _ + 1, [] => []
  | f + 1, c :: rest =>
    match urlMatchAt httpsPre (c :: rest) with
    | some (m, rest') => m :: urlScanAux f rest'
    | none =>
      match urlMatchAt httpPre (c :: rest) with
      | some (m, rest') => m :: urlScanAux f rest'
      | none => urlScanAux f rest

def urlScan (t : Str) : List Str := urlScanAux t.length t

/-- Modelled from the spec (C8): the terminator set the specification
describes for the generic URL pattern — "a terminating quote, space, or
angle bracket" — which omits the closing parenthesis the code's `URL_RE`
character class also excludes. -/
def specUrlTermChar (c : Char) : Bool :=
  c = '"' || c = '\'' || c = '<' || c = '>' || isPyWhitespace c

/-- Modelled from the spec (C8): the URL matcher with the spec's terminator
set, otherwise identical to `urlMatchAt`. -/
def specUrlMatchAt (pre t : Str) : Option (Str × Str) :=
  if pre.isPrefixOf t then
    let afterScheme := t.drop pre.length
    let run := afterScheme.takeWhile (fun c => !specUrlTermChar c)
    if run = [] then none
    else some (pre ++ run, afterScheme.dropWhile (fun c => !specUrlTermChar c))
  else none

def specUrlScanAux : Nat → Str → List Str
  | 0, _ => []
  | _ + 1, [] => []
  | f + 1, c :: rest =>
    match specUrlMatchAt httpsPre (c :: rest) with
    | some (m, rest') => m :: specUrlScanAux f rest'
    | none =>
      match specUrlMatchAt httpPre (c :: rest) with
      | some (m, rest') => m :: specUrlScanAux f rest'
      | none => specUrlScanAux f rest

/-- Modelled from the spec (C8): URL collection with the spec's terminator
set. -/
def specUrlScan (t : Str) : List Str := specUrlScanAux t.length t

/-- Reduced model of Python `html.unescape`: character references `&#ddd;` and
`&#xhh;` and the named entities `amp`, `lt`, `gt`, `quot`, `apos` (with the
terminating semicolon).  The documents handled by the script use only these;
the full html5 named-entity table (and CPython's semicolon-less lookup) is not
reproduced. -/
def namedEntities : List (Str × Char) :=
  [("amp".toList, '&'), ("lt".toList, '<'), ("gt".toList, '>'),
   ("quot".toList, '"'), ("apos".toList, '\'')]

def charOfCode (n : Nat) : Char :=
  if n.isValidChar then Char.ofNat n else '�'

def isHexDigitChar (c : Char) : Bool :=
  c.isDigit || ('a' ≤ c && c ≤ 'f') || ('A' ≤ c && c ≤ 'F')

def digitsToNat (base : Nat) (ds : List Nat) : Nat :=
  ds.foldl (fun acc d => acc * base + d) 0

def hexVal (c : Char) : Nat :=
  if c.isDigit then c.toNat - 48
  else if 'a' ≤ c ∧ c ≤ 'f' then c.toNat - 87
  else c.toNat - 55

def unescapeAux : Nat → Str → Str
  | 0, t => t
  | _ + 1, [] => []
  | f + 1, '&' :: rest =>
    match rest with
    | '#' :: r2 =>
      let hexMode := match r2 with
        | 'x' :: _ => true
        | 'X' :: _ => true
        | _ => false
      let r3 := if hexMode then r2.drop 1 else r2
      let digits := r3.takeWhile (fun c => if hexMode then isHexDigitChar c else c.isDigit)
      let afterDigits := r3.drop digits.length
      if digits ≠ [] ∧ afterDigits.headD ' ' = ';' then
        charOfCode (digitsToNat (if hexMode then 16 else 10) (digits.map hexVal)) ::
          unescapeAux f (afterDigits.drop 1)
      else '&' :: unescapeAux f rest
    | _ =>
      let letters := rest.takeWhile Char.isAlpha
      let afterName := rest.drop letters.length
      match namedEntities.lookup letters with
      | some ch =>
        if afterName.headD ' ' = ';' then ch :: unescapeAux f (afterName.drop 1)
        else '&' :: unescapeAux f rest
      | none => '&' :: unescapeAux f rest
  | f + 1, c :: rest => c :: unescapeAux f rest

def unescapeHtml (t : Str) : Str := unescapeAux t.length t

/-- `_extract_urls_from_text` (mirror_webflow.py, lines 130-133): decode HTML
entities, then collect the `URL_RE` matches as a set. -/
def extract_urls_from_text (t : Str) : List Str := dedupStrs (urlScan (unescapeHtml t))

/-- `html.escape(s, quote=True)` (CPython: `&`, `<`, `>`, then both quotes). -/
def htmlEscape (s : Str) : Str :=
  let s1 := pyReplace s "&".toList "&amp;".toList
  let s2 := pyReplace s1 "<".toList "&lt;".toList
  let s3 := pyReplace s2 ">".toList "&gt;".toList
  let s4 := pyReplace s3 "\"".toList "&quot;".toList
  pyReplace s4 "'".toList "&#x27;".toList

/-- Matching the lazy quoted body of `CSS_URL_RE`: the shortest run (without a
newline, since `.` does not match one) ending at a `q` that is immediately
followed by `)`.  Returns the body and the text after the closing `)`. -/
def findClosingQuoted (q : Char) : Str → Option (Str × Str)
  | [] => none
  | c :: rest =>
    if c = '\n' then none
    else if c = q then
      match rest with
      | ')' :: r3 => some ([], r3)
      | _ =>
        match findClosingQuoted q rest with
        | some p => some (c :: p.1, p.2)
        | none => none
    else
      match findClosingQuoted q rest with
      | some p => some (c :: p.1, p.2)
      | none => none

/-- Matching the lazy unquoted body of `CSS_URL_RE`: the shortest run (without
a newline) up to a `)`. -/
def findParen : Str → Option (Str × Str)
  | [] => none
  | c :: rest =>
    if c = '\n' then none
    else if c = ')' then some ([], rest)
    else
      match findParen rest with
      | some p => some (c :: p.1, p.2)
      | none => none

/-- `CSS_URL_RE.finditer`: `url\((?P<q>['\"]?)(?P<u>.*?)(?P=q)\)`, collecting
the `u` groups.  The optional quote group is greedy, so a quoted body is
preferred and the engine falls back to the unquoted reading. -/
def cssUrlScanAux : Nat → Str → List Str
  | 0, _ => []
  | _ + 1, [] => []
  | f + 1, c :: rest =>
    if "url(".toList.isPrefixOf (c :: rest) then
      let j := (c :: rest).drop 4
      match j with
      | q :: r2 =>
        if q = '\'' ∨ q = '"' then
          match findClosingQuoted q r2 with
          | some p => p.1 :: cssUrlScanAux f p.2
          | none =>
            match findParen j with
            | some p => p.1 :: cssUrlScanAux f p.2
            | none => cssUrlScanAux f rest
        else
          match findParen j with
          | some p => p.1 :: cssUrlScanAux f p.2
          | none => cssUrlScanAux f rest
      | [] => cssUrlScanAux f rest
    else cssUrlScanAux f rest

def cssUrlScan (t : Str) : List Str := cssUrlScanAux t.length t

/-- Python `str.strip()` (ASCII whitespace). -/
def pyStrip (s : Str) : Str :=
  ((s.dropWhile isPyWhitespace).reverse.dropWhile isPyWhitespace).reverse

/-- The per-match handling of CSS-discovered references (mirror_webflow.py,
lines 309-316): strip, skip `data:` URIs, normalize protocol-relative `//`
references to `https:`, keep only `http(s)://` results. -/
def cssRawToUrl (raw : Str) : Option Str :=
  let r := pyStrip raw
  if "data:".toList.isPrefixOf r then none
  else
    let r2 := if "//".toList.isPrefixOf r then "https:".toList ++ r else r
    if "http://".toList.isPrefixOf r2 ∨ "https://".toList.isPrefixOf r2 then some r2
    else none

/-! ### `_download` (mirror_webflow.py, lines 185-214) -/

/-- Outcome of one fetch attempt: body bytes, an `HTTPError` with a status
code, or any other exception (network error, timeout). -/
inductive FetchOutcome where
  | success (data : Str)
  | httpError (code : Nat)
  | failure
deriving Repr, DecidableEq

/-- Observable trace of `_download`: result, number of fetch attempts made,
the `time.sleep` durations (in seconds, exact integers `1.0 + attempt`), and
the bytes written to the destination file (written only on success). -/
structure DownloadTrace where
  ok : Bool
  attempts : Nat
  sleeps : List Nat
  written : Option Str
deriving Repr, DecidableEq

def permanentCode (code : Nat) : Bool :=
  code = 400 || code = 401 || code = 403 || code = 404

/-- The `for attempt in range(retries + 1)` loop of `_download`; the second
`Nat` argument is the number of remaining iterations. -/
def downloadLoop (fetch : Nat → FetchOutcome) (retries : Nat) : Nat → Nat → DownloadTrace
  | _, 0 => ⟨false, 0, [], none⟩
  | attempt, n + 1 =>
    match fetch attempt with
    | .success data => ⟨true, 1, [], some data⟩
    | .httpError code =>
      if permanentCode code then ⟨false, 1, [], none⟩
      else if retries ≤ attempt then ⟨false, 1, [], none⟩
      else
        let rest := downloadLoop fetch retries (attempt + 1) n
        ⟨rest.ok, rest.attempts + 1, (1 + attempt) :: rest.sleeps, rest.written⟩
    | .failure =>
      if retries ≤ attempt then ⟨false, 1, [], none⟩
      else
        let rest := downloadLoop fetch retries (attempt + 1) n
        ⟨rest.ok, rest.attempts + 1, (1 + attempt) :: rest.sleeps, rest.written⟩

/-- `_download(url, dest, user_agent, retries)`, abstracted over the network
(`fetch` gives the outcome of the attempt with the given index; the script
always uses the default budget `retries = 2`). -/
def download (fetch : Nat → FetchOutcome) (retries : Nat) : DownloadTrace :=
  downloadLoop fetch retries 0 (retries + 1)

/-! ### `BROKEN_LOCAL_ASSET_RE.sub(r"\1", ...)` (mirror_webflow.py, lines 61-64, 227)

Pattern (with `re.IGNORECASE`):
`https?://videa-saversion\.webflow\.io/(?:[^\s"\']*/)?(?:&quot;|"|%22)(assets/[^"&%<>\s)]+)(?:&quot;|"|%22)`.
The capture-class excludes `&`, `"` and `%`, which are exactly the characters
the closing-quote alternation can start with, so the greedy capture run never
needs to backtrack; the optional `[^\s"\']*/` group does backtrack over slash
positions. -/

def brokenHostHttps : Str := "https://videa-saversion.webflow.io/".toList

def brokenHostHttp : Str := "http://videa-saversion.webflow.io/".toList

/-- Case-insensitive literal prefix test (`pre` must be lowercase). -/
def isPrefixOfCI (pre t : Str) : Bool := decide (lowerStr (t.take pre.length) = pre)

/-- One quoting variant `(?:&quot;|"|%22)`; returns the remaining text. -/
def matchQuoteVariant (t : Str) : Option Str :=
  if isPrefixOfCI "&quot;".toList t then some (t.drop 6)
  else
    match t with
    | '"' :: r => some r
    | '%' :: '2' :: '2' :: r => some r
    | _ => none

/-- The capture-run class `[^"&%<>\s)]`. -/
def isBrokenCapChar (c : Char) : Bool :=
  !(c = '"' || c = '&' || c = '%' || c = '<' || c = '>' || c = ')' || isPyWhitespace c)

/-- Quote, capture group `(assets/[^"&%<>\s)]+)`, closing quote; returns the
captured text (original case) and the remainder after the match. -/
def brokenTryTail (t : Str) : Option (Str × Str) :=
  match matchQuoteVariant t with
  | none => none
  | some t2 =>
    if isPrefixOfCI "assets/".toList t2 then
      let afterA := t2.drop 7
      let run := afterA.takeWhile isBrokenCapChar
      if run = [] then none
      else
        match matchQuoteVariant (afterA.drop run.length) with
        | none => none
        | some rem => some (t2.take (7 + run.length), rem)
    else none

/-- Candidate consumption lengths for the greedy optional group
`(?:[^\s"\']*/)?`: every position just past a slash inside the maximal
class-run, longest first, then the empty reading. -/
def brokenSlashCandidates (js : Str) : List Nat :=
  let r := js.takeWhile (fun c => !(isPyWhitespace c || c = '"' || c = '\''))
  (((List.range r.length).filter (fun i => r.getD i ' ' = '/')).map (· + 1)).reverse ++ [0]

def brokenTryCands (js : Str) : List Nat → Option (Str × Str)
  | [] => none
  | k :: ks =>
    match brokenTryTail (js.drop k) with
    | some p => some p
    | none => brokenTryCands js ks

/-- Attempt a `BROKEN_LOCAL_ASSET_RE` match anchored at the start of `t`. -/
def brokenMatchAt (t : Str) : Option (Str × Str) :=
  let tryHost (host : Str) : Option (Str × Str) :=
    if isPrefixOfCI host t then brokenTryCands (t.drop host.length) (brokenSlashCandidates (t.drop host.length))
    else none
  match tryHost brokenHostHttps with
  | some p => some p
  | none => tryHost brokenHostHttp

def brokenSubAux : Nat → Str → Str
  | 0, t => t
  | _ + 1, [] => []
  | f + 1, c :: rest =>
    match brokenMatchAt (c :: rest) with
    | some p => p.1 ++ brokenSubAux f p.2
    | none => c :: brokenSubAux f rest

/-- `BROKEN_LOCAL_ASSET_RE.sub(r"\1", t)`. -/
def brokenSub (t : Str) : Str := brokenSubAux t.length t

/-! ### The document rewrite functions -/

/-- The content transformation of `_rewrite_in_file` (mirror_webflow.py,
lines 217-233): for every replacement, substitute both the raw source string
and its `html.escape`d form, then collapse the broken-quoting artifacts. -/
def rewrite_in_file_content (content : Str) (replacements : List (Str × Str)) : Str :=
  let updated := replacements.foldl
    (fun acc p => pyReplace (pyReplace acc p.1 p.2) (htmlEscape p.1) p.2) content
  brokenSub updated

/-- Python `"../" * depth`. -/
def strMulRep (s : Str) (n : Nat) : Str := (List.replicate n s).flatten

/-- `_relative_assets_prefix` (mirror_webflow.py, lines 67-77): the document's
path parts relative to the site root determine the depth. -/
def relative_assets_pfx (relParts : List Str) : Str :=
  strMulRep "../".toList (relParts.length - 1) ++ "assets/".toList

/-- The thirteen trigger/replacement-head pairs of
`_rewrite_nested_local_asset_refs` (mirror_webflow.py, lines 93-113), in
source order; the replacement is the head followed by the computed relative
path to `assets/`. -/
def nestedTriggerPairs : List (Str × Str) :=
  [("src=\"assets/", "src=\""), ("src='assets/", "src='"),
   ("href=\"assets/", "href=\""), ("href='assets/", "href='"),
   ("srcset=\"assets/", "srcset=\""), ("srcset='assets/", "srcset='"),
   ("url(assets/", "url("), ("url(\"assets/", "url(\""), ("url('assets/", "url('"),
   ("src=&quot;assets/", "src=&quot;"), ("href=&quot;assets/", "href=&quot;"),
   ("srcset=&quot;assets/", "srcset=&quot;"),
   ("url(&quot;assets/", "url(&quot;")].map (fun p => (p.1.toList, p.2.toList))

/-- The content transformation of `_rewrite_nested_local_asset_refs`
(mirror_webflow.py, lines 80-119); a root-level document (prefix `assets/`)
is returned untouched. -/
def nested_refs_fix (pfx content : Str) : Str :=
  if pfx = "assets/".toList then content
  else nestedTriggerPairs.foldl (fun acc p => pyReplace acc p.1 (p.2 ++ pfx)) content

/-- The stylesheet `assets/` collapse of pass 2 (mirror_webflow.py,
lines 347-352), in source order. -/
def cssCollapse (txt : Str) : Str :=
  pyReplace
    (pyReplace (pyReplace txt "url(\"assets/".toList "url(\"".toList)
      "url('assets/".toList "url('".toList)
    "url(assets/".toList "url(".toList

/-! ### The pipeline (`main`, mirror_webflow.py, lines 236-371)

The filesystem is modelled by the files the script touches: the `.html`
documents under the site root (as path parts relative to the root, in the
sorted order `_iter_files` produces, paired with their text) and the flat
`assets/` directory (an association list from file name to content, since
every download destination is `assets_dir / filename`).  The network is a
deterministic function from URL to an optional body: `none` means every fetch
attempt fails, matching the "unchanged external content" reading. -/

structure Site where
  html : List (List Str × Str)
  assets : List (Str × Str)
deriving Repr, DecidableEq

structure RunStats where
  exitCode : Nat
  found : Nat
  downloaded : Nat
  failed : Nat
  rewrittenHtml : Nat
  rewrittenCss : Nat
  rewrittenJs : Nat
  mapping : List (Str × Str)
deriving Repr, DecidableEq

/-- `dest.exists() and dest.stat().st_size > 0` for `assets_dir / fn`. -/
def destNonEmpty (assets : List (Str × Str)) (fn : Str) : Bool :=
  match dictFind fn assets with
  | some c => c ≠ []
  | none => false

def contentOf (assets : List (Str × Str)) (fn : Str) : Str := (dictFind fn assets).getD []

/-- Wrap the deterministic network as the per-attempt fetch `_download` sees. -/
def netFetch (net : Str → Option Str) (url : Str) : Nat → FetchOutcome :=
  fun _ => match net url with
    | some d => FetchOutcome.success d
    | none => FetchOutcome.failure

/-- Pass-1 asset gathering (mirror_webflow.py, lines 256-260): the sorted set
of classified asset URLs extracted from the HTML documents. -/
def assetUrlsOfHtml (html : List (List Str × Str)) : List Str :=
  sortStrs (dedupStrs
    (((html.map (fun f => extract_urls_from_text f.2)).flatten).filter is_asset_url))

structure DlState where
  assets : List (Str × Str)
  fbu : List (Str × Str)
  downloaded : Nat
  failed : Nat
deriving Repr, DecidableEq

/-- One iteration of the pass-1 download loop (mirror_webflow.py,
lines 270-283). -/
def pass1Step (net : Str → Option Str) (st : DlState) (url : Str) : DlState :=
  let fn := safe_filename_from_url url
  if destNonEmpty st.assets fn then { st with fbu := dictInsert url fn st.fbu }
  else
    match (download (netFetch net url) 2).written with
    | some data =>
      { st with assets := dictInsert fn data st.assets, fbu := dictInsert url fn st.fbu,
                downloaded := st.downloaded + 1 }
    | none => { st with failed := st.failed + 1 }

/-- One iteration of the pass-2 download loop (mirror_webflow.py,
lines 326-334); note it neither increments a counter on success nor on
failure, and a failure skips the map update. -/
def pass5Step (net : Str → Option Str) (st : DlState) (url : Str) : DlState :=
  let fn := safe_filename_from_url url
  if !destNonEmpty st.assets fn then
    match (download (netFetch net url) 2).written with
    | some data =>
      { st with assets := dictInsert fn data st.assets, fbu := dictInsert url fn st.fbu }
    | none => st
  else { st with fbu := dictInsert url fn st.fbu }

/-- `_iter_files(assets_dir, {suffix})`: names of the assets files with the
given (lowercased) suffix, sorted. -/
def fileNamesWithSuffix (suffix : Str) (assets : List (Str × Str)) : List Str :=
  sortStrs ((assets.map Prod.fst).filter (fun fn => lowerStr (pathSuffix fn) = suffix))

/-- Pass-2 URL discovery (mirror_webflow.py, lines 304-322): CSS `url(...)`
references (normalized) plus generic URLs from JS, classified and sorted. -/
def discoveredAssetUrls (cssNames jsNames : List Str) (assets : List (Str × Str)) : List Str :=
  let cssPart := (cssNames.map
    (fun n => (cssUrlScan (contentOf assets n)).filterMap cssRawToUrl)).flatten
  let jsPart := (jsNames.map (fun n => extract_urls_from_text (contentOf assets n))).flatten
  sortStrs (dedupStrs ((cssPart ++ jsPart).filter is_asset_url))

/-- Pass-1 rewrite of one HTML document (mirror_webflow.py, lines 292-296):
`_rewrite_in_file` then `_rewrite_nested_local_asset_refs`. -/
def rewriteHtmlFile (reps : List (Str × Str)) (f : List Str × Str) : (List Str × Str) × Bool :=
  let c1 := rewrite_in_file_content f.2 reps
  let c2 := nested_refs_fix (relative_assets_pfx f.1) c1
  ((f.1, c2), decide (c1 ≠ f.2) || decide (c2 ≠ c1))

/-- Pass-2 rewrite of one stylesheet (mirror_webflow.py, lines 341-358):
`_rewrite_in_file` with bare-filename targets, then the `url(assets/`
collapse; each step writes back only when it changed the text. -/
def rewriteCssFile (reps : List (Str × Str)) (assets : List (Str × Str)) (name : Str) :
    List (Str × Str) × Bool :=
  let c := contentOf assets name
  let c1 := rewrite_in_file_content c reps
  let assets1 := if c1 ≠ c then dictInsert name c1 assets else assets
  let fixed := cssCollapse c1
  let assets2 := if fixed ≠ c1 then dictInsert name fixed assets1 else assets1
  (assets2, decide (c1 ≠ c) || decide (fixed ≠ c1))

/-- Pass-2 rewrite of one script (mirror_webflow.py, lines 360-363). -/
def rewriteJsFile (reps : List (Str × Str)) (assets : List (Str × Str)) (name : Str) :
    List (Str × Str) × Bool :=
  let c := contentOf assets name
  let c1 := rewrite_in_file_content c reps
  if c1 ≠ c then (dictInsert name c1 assets, true) else (assets, false)

def earlyExitStats : RunStats := ⟨2, 0, 0, 0, 0, 0, 0, []⟩

/-- `main()` (mirror_webflow.py, lines 236-371).  `argvLen` is `len(sys.argv)`
(program name included); `rootExists`/`rootIsDir` model the two checks on the
resolved site root. -/
def mirror_main (net : Str → Option Str) (argvLen : Nat) (rootExists rootIsDir : Bool)
    (s : Site) : Site × RunStats :=
  if argvLen ≠ 2 then (s, earlyExitStats)
  else if !(rootExists && rootIsDir) then (s, earlyExitStats)
  else if s.html = [] then (s, earlyExitStats)
  else
    let asset_urls := assetUrlsOfHtml s.html
    let st1 := asset_urls.foldl (pass1Step net) ⟨s.assets, [], 0, 0⟩
    let repsHtml := st1.fbu.map (fun p => (p.1, "assets/".toList ++ p.2))
    let htmlResults := s.html.map (rewriteHtmlFile repsHtml)
    let cssNames := fileNamesWithSuffix ".css".toList st1.assets
    let jsNames := fileNamesWithSuffix ".js".toList st1.assets
    let discovered := discoveredAssetUrls cssNames jsNames st1.assets
    let st2 := discovered.foldl (pass5Step net) st1
    let cssRes := cssNames.foldl
      (fun (acc : List (Str × Str) × Nat) n =>
        let r := rewriteCssFile st2.fbu acc.1 n
        (r.1, acc.2 + if r.2 then 1 else 0)) (st2.assets, 0)
    let jsRes := jsNames.foldl
      (fun (acc : List (Str × Str) × Nat) n =>
        let r := rewriteJsFile st2.fbu acc.1 n
        (r.1, acc.2 + if r.2 then 1 else 0)) (cssRes.1, 0)
    (⟨htmlResults.map Prod.fst, jsRes.1⟩,
     ⟨0, asset_urls.length, st2.downloaded, st2.failed,
      (htmlResults.filter Prod.snd).length, cssRes.2, jsRes.2, st2.fbu⟩)

/-- The site of the C7 end-to-end scenario: a stylesheet at
`root/assets/site.css` containing `url("assets/bg.png")` (plus one HTML page
so `main` proceeds). -/
def c7Site : Site :=
  ⟨[(["index.html".toList], "<p>hi</p>".toList)],
   [("site.css".toList, "url(\"assets/bg.png\")".toList)]⟩

/-- A network and site for the C7 witness: one external image referenced by
the root page. -/
def c7Net : Str → Option Str :=
  fun u => if u = "https://cdn.example.com/logo.png".toList then some "DATA".toList else none

def c7WitnessSite : Site :=
  ⟨[(["index.html".toList], "<img src=\"https://cdn.example.com/logo.png\">".toList)], []⟩

/-- The site of the C1 counterexample: a stylesheet with a doubled `assets/`
segment.  The first run collapses the outer `url("assets/` once, leaving
`url("assets/b.png")`; a second run collapses it again. -/
def c1Site : Site :=
  ⟨[(["index.html".toList], "<p>hi</p>".toList)],
   [("site.css".toList, "url(\"assets/assets/b.png\")".toList)]⟩

/-- The site of the C1 witness: one root page with no external references. -/
def c1WitnessSite : Site :=
  ⟨[(["index.html".toList], "<p>hi</p>".toList)], []⟩

/-- The site of the C6 counterexample and witness: a root page referencing
one external image (whose download will fail). -/
def c6Site : Site :=
  ⟨[(["index.html".toList], "<img src=\"https://cdn.example.com/gone.png\">".toList)], []⟩

end Mirror

/-! ## The branding rewriter (`tools/remove_branding.py`) -/

namespace Branding

open Mirror (Str)

/-- `validate_rename_map` errors (each raises `SystemExit`). -/
inductive RenameError where
  | noopRename (src : Str)
  | duplicateTarget (dst : Str)
  | destinationExists (dst : Str)
deriving Repr, DecidableEq

/-- The loop of `validate_rename_map` (remove_branding.py, lines 66-75):
`keys` is the full key set of the rename dict, `targets` accumulates the
destinations seen so far. -/
def validateGo (fsExists : Str → Bool) (keys : List Str) :
    List Str → List (Str × Str) → Option RenameError
  | _, [] => none
  | targets, (src, dst) :: rest =>
    if src = dst then some (RenameError.noopRename src)
    else if dst ∈ targets then some (RenameError.duplicateTarget dst)
    else if fsExists dst ∧ dst ∉ keys then some (RenameError.destinationExists dst)
    else validateGo fsExists keys (dst :: targets) rest

/-- `validate_rename_map` (remove_branding.py, lines 66-75). -/
def validate_rename_map (fsExists : Str → Bool) (m : List (Str × Str)) : Option RenameError :=
  validateGo fsExists (m.map Prod.fst) [] m

/-- Filesystem mutations `main` can perform. -/
inductive BrandingAct where
  | writeText (path : Str)
  | renameFile (src dst : Str)
deriving Repr, DecidableEq

def insertByLenDesc (x : Str × Str) : List (Str × Str) → List (Str × Str)
  | [] => [x]
  | y :: ys => if y.1.length ≤ x.1.length then x :: y :: ys else y :: insertByLenDesc x ys

/-- `sorted(rename_map.items(), key=len(str(src)), reverse=True)`. -/
def sortRenamesByLenDesc (m : List (Str × Str)) : List (Str × Str) :=
  m.foldr insertByLenDesc []

/-- The effect skeleton of `main` (remove_branding.py, lines 124-186):
`build_rename_map` is pure, `validate_rename_map` runs before the content
loop, content writes happen only in apply mode for the files whose text
changed (`changedFiles` abstracts the substitution results), and the renames
run last, longest source first, skipping vanished sources.  A validation
error raises `SystemExit`, modelled as `none`: no action list is produced. -/
def branding_main_acts (fsExists : Str → Bool) (m : List (Str × Str)) (applyMode : Bool)
    (changedFiles : List Str) : Option (List BrandingAct) :=
  match validate_rename_map fsExists m with
  | some _ => none
  | none =>
    some ((if applyMode then changedFiles.map BrandingAct.writeText else []) ++
      (if applyMode then
        ((sortRenamesByLenDesc m).filter (fun p => fsExists p.1)).map
          (fun p => BrandingAct.renameFile p.1 p.2)
      else []))

end Branding

/-! ## Generic lemmas about the string primitives -/

namespace Mirror

theorem replaceCoreAux_of_not_infix {needle : Str} (repl : Str) :
    ∀ (f : Nat) {s : Str}, ¬ needle <:+: s → replaceCoreAux needle repl f s = s := by
  intro f
  induction f with
  | zero => intro s _; rfl
  | succ g ih =>
    intro s h
    cases s with
    | nil => rfl
    | cons c rest =>
      have hpre : ¬ (needle.isPrefixOf (c :: rest) ∧ needle ≠ []) := by
        rintro ⟨hp, -⟩
        exact h (List.IsPrefix.isInfix (List.isPrefixOf_iff_prefix.mp hp))
      rw [replaceCoreAux, if_neg hpre]
      have : ¬ needle <:+: rest := fun hi => h (List.infix_cons hi)
      rw [ih this]

theorem pyReplace_of_not_infix {s old : Str} (new : Str) (h : ¬ old <:+: s) :
    pyReplace s old new = s := by
  have hne : old ≠ [] := by
    rintro rfl
    exact h List.nil_infix
  rw [pyReplace, if_neg hne, replaceCore, replaceCoreAux_of_not_infix new _ h]

theorem replaceCoreAux_fuel {needle repl : Str} :
    ∀ (f1 f2 : Nat) (s : Str), s.length ≤ f1 → s.length ≤ f2 →
      replaceCoreAux needle repl f1 s = replaceCoreAux needle repl f2 s := by
  intro f1
  induction f1 with
  | zero =>
    intro f2 s hs1 _
    have : s = [] := List.length_eq_zero.mp (Nat.le_zero.mp hs1)
    subst this
    cases f2 <;> rfl
  | succ g ih =>
    intro f2 s hs1 hs2
    cases s with
    | nil => cases f2 <;> rfl
    | cons c rest =>
      cases f2 with
      | zero => exact absurd hs2 (by simp)
      | succ h2 =>
        rw [replaceCoreAux, replaceCoreAux]
        by_cases hp : needle.isPrefixOf (c :: rest) ∧ needle ≠ []
        · rw [if_pos hp, if_pos hp]
          congr 1
          exact ih h2 _ (by simp at hs1 ⊢; omega) (by simp at hs2 ⊢; omega)
        · rw [if_neg hp, if_neg hp]
          congr 1
          exact ih h2 rest (by simpa using hs1) (by simpa using hs2)

theorem pyReplace_head_match {old : Str} (hne : old ≠ []) (new b : Str) :
    pyReplace (old ++ b) old new = new ++ pyReplace b old new := by
  rw [pyReplace, if_neg hne, pyReplace, if_neg hne, replaceCore, replaceCore]
  match old, hne with
  | o :: os, _ =>
    show replaceCoreAux (o :: os) new ((os ++ b).length + 1) (o :: (os ++ b)) =
      new ++ replaceCoreAux (o :: os) new b.length b
    rw [replaceCoreAux]
    have hp : (o :: os).isPrefixOf (o :: (os ++ b)) ∧ (o :: os) ≠ [] :=
      ⟨List.isPrefixOf_iff_prefix.mpr ⟨b, by simp⟩, by simp⟩
    rw [if_pos hp]
    have hdrop : (os ++ b).drop ((o :: os).length - 1) = b := by
      simp [List.drop_left]
    rw [hdrop]
    congr 1
    exact replaceCoreAux_fuel _ _ b (by simp) (by simp)

theorem foldl_pyReplace_id {c : Str} {prs : List (Str × Str)}
    (f : Str × Str → Str) (h : ∀ p ∈ prs, ¬ p.1 <:+: c) :
    prs.foldl (fun acc p => pyReplace acc p.1 (f p)) c = c := by
  induction prs with
  | nil => rfl
  | cons p rest ih =>
    have h1 : ¬ p.1 <:+: c := h p (by simp)
    simp only [List.foldl_cons, pyReplace_of_not_infix _ h1]
    exact ih (fun q hq => h q (by simp [hq]))

theorem map_eq_self_of_eq {α : Type} {l : List α} {f : α → α} (h : ∀ x ∈ l, f x = x) :
    l.map f = l := by
  induction l with
  | nil => rfl
  | cons x rest ih =>
    simp only [List.map_cons, h x (by simp), ih (fun y hy => h y (by simp [hy])), List.cons.injEq,
      and_self]

/-! ## Lemmas about `_download` -/

theorem downloadLoop_all_fail (fetch : Nat → FetchOutcome) (retries : Nat)
    (h : ∀ i, fetch i = FetchOutcome.failure ∨
      ∃ c, permanentCode c = false ∧ fetch i = FetchOutcome.httpError c) :
    ∀ (n attempt : Nat), retries + 1 = attempt + n →
      downloadLoop fetch retries attempt n =
        ⟨false, n, (List.range' attempt (n - 1)).map (fun i => 1 + i), none⟩ := by
  intro n
  induction n with
  | zero => intro attempt _; simp [downloadLoop]
  | succ m ih =>
    intro attempt hsum
    have hbranch :
        (if retries ≤ attempt then (⟨false, 1, [], none⟩ : DownloadTrace)
          else
            let rest := downloadLoop fetch retries (attempt + 1) m
            ⟨rest.ok, rest.attempts + 1, (1 + attempt) :: rest.sleeps, rest.written⟩) =
          ⟨false, m + 1, (List.range' attempt m).map (fun i => 1 + i), none⟩ := by
      cases m with
      | zero =>
        have hle : retries ≤ attempt := by omega
        simp [if_pos hle]
      | succ k =>
        have hlt : ¬ retries ≤ attempt := by omega
        rw [if_neg hlt]
        have hrest := ih (attempt + 1) (by omega)
        simp only [hrest, List.range'_succ]
        simp
    rcases h attempt with hf | ⟨c, hc, hf⟩
    · rw [downloadLoop, hf]
      simpa using hbranch
    · rw [downloadLoop, hf]
      simp only [hc, Bool.false_eq_true, if_false]
      simpa using hbranch

theorem downloadLoop_written_isSome (fetch : Nat → FetchOutcome) (retries : Nat) :
    ∀ (n attempt : Nat),
      (downloadLoop fetch retries attempt n).written.isSome =
        (downloadLoop fetch retries attempt n).ok := by
  intro n
  induction n with
  | zero => intro attempt; simp [downloadLoop]
  | succ m ih =>
    intro attempt
    rw [downloadLoop]
    cases hf : fetch attempt with
    | success data => simp
    | httpError code =>
      by_cases hp : permanentCode code = true
      · simp [hp]
      · by_cases hr : retries ≤ attempt
        · simp [hp, hr]
        · simpa [hp, hr] using ih (attempt + 1)
    | failure =>
      by_cases hr : retries ≤ attempt
      · simp [hr]
      · simpa [hr] using ih (attempt + 1)

theorem downloadLoop_written_success (fetch : Nat → FetchOutcome) (retries : Nat) :
    ∀ (n attempt : Nat) (data : Str),
      (downloadLoop fetch retries attempt n).written = some data →
      ∃ i, fetch i = FetchOutcome.success data := by
  intro n
  induction n with
  | zero => intro attempt data hw; simp [downloadLoop] at hw
  | succ m ih =>
    intro attempt data hw
    rw [downloadLoop] at hw
    cases hf : fetch attempt with
    | success d =>
      rw [hf] at hw
      simp at hw
      exact ⟨attempt, by rw [hf, hw]⟩
    | httpError code =>
      rw [hf] at hw
      by_cases hp : permanentCode code = true
      · simp [hp] at hw
      · by_cases hr : retries ≤ attempt
        · simp [hp, hr] at hw
        · simp only [hp, Bool.false_eq_true, if_false, hr, if_neg hr] at hw
          exact ih (attempt + 1) data hw
    | failure =>
      rw [hf] at hw
      by_cases hr : retries ≤ attempt
      · simp [hr] at hw
      · simp only [hr, if_neg hr] at hw
        exact ih (attempt + 1) data hw

theorem downloadLoop_stop_permanent (fetch : Nat → FetchOutcome) (retries code : Nat)
    (hcode : permanentCode code = true) :
    ∀ (k attempt n : Nat),
      (∀ i, attempt ≤ i → i < attempt + k →
        fetch i = FetchOutcome.failure ∨
          ∃ c, permanentCode c = false ∧ fetch i = FetchOutcome.httpError c) →
      fetch (attempt + k) = FetchOutcome.httpError code →
      attempt + k ≤ retries → attempt + n = retries + 1 →
      downloadLoop fetch retries attempt n =
        ⟨false, k + 1, (List.range' attempt k).map (fun i => 1 + i), none⟩ := by
  intro k
  induction k with
  | zero =>
    intro attempt n hpre hk hle hn
    obtain ⟨n', rfl⟩ : ∃ n', n = n' + 1 := ⟨n - 1, by omega⟩
    rw [Nat.add_zero] at hk
    rw [downloadLoop, hk]
    simp [hcode]
  | succ m ih =>
    intro attempt n hpre hk hle hn
    obtain ⟨n', rfl⟩ : ∃ n', n = n' + 1 := ⟨n - 1, by omega⟩
    have hlt : ¬ retries ≤ attempt := by omega
    have hrec := ih (attempt + 1) n'
      (fun i hi1 hi2 => hpre i (by omega) (by omega))
      (by rw [show attempt + 1 + m = attempt + (m + 1) from by omega]; exact hk)
      (by omega) (by omega)
    have hbranch :
        (if retries ≤ attempt then (⟨false, 1, [], none⟩ : DownloadTrace)
          else
            let rest := downloadLoop fetch retries (attempt + 1) n'
            ⟨rest.ok, rest.attempts + 1, (1 + attempt) :: rest.sleeps, rest.written⟩) =
          ⟨false, m + 1 + 1, (List.range' attempt (m + 1)).map (fun i => 1 + i), none⟩ := by
      rw [if_neg hlt]
      simp only [hrec, List.range'_succ]
      simp
    rcases hpre attempt (le_refl _) (by omega) with hf | ⟨c, hc, hf⟩
    · rw [downloadLoop, hf]
      simpa using hbranch
    · rw [downloadLoop, hf]
      simp only [hc, Bool.false_eq_true, if_false]
      simpa using hbranch

theorem downloadLoop_stop_success (fetch : Nat → FetchOutcome) (retries : Nat) (data : Str) :
    ∀ (k attempt n : Nat),
      (∀ i, attempt ≤ i → i < attempt + k →
        fetch i = FetchOutcome.failure ∨
          ∃ c, permanentCode c = false ∧ fetch i = FetchOutcome.httpError c) →
      fetch (attempt + k) = FetchOutcome.success data →
      attempt + k ≤ retries → attempt + n = retries + 1 →
      downloadLoop fetch retries attempt n =
        ⟨true, k + 1, (List.range' attempt k).map (fun i => 1 + i), some data⟩ := by
  intro k
  induction k with
  | zero =>
    intro attempt n hpre hk hle hn
    obtain ⟨n', rfl⟩ : ∃ n', n = n' + 1 := ⟨n - 1, by omega⟩
    rw [Nat.add_zero] at hk
    rw [downloadLoop, hk]
    simp
  | succ m ih =>
    intro attempt n hpre hk hle hn
    obtain ⟨n', rfl⟩ : ∃ n', n = n' + 1 := ⟨n - 1, by omega⟩
    have hlt : ¬ retries ≤ attempt := by omega
    have hrec := ih (attempt + 1) n'
      (fun i hi1 hi2 => hpre i (by omega) (by omega))
      (by rw [show attempt + 1 + m = attempt + (m + 1) from by omega]; exact hk)
      (by omega) (by omega)
    have hbranch :
        (if retries ≤ attempt then (⟨false, 1, [], none⟩ : DownloadTrace)
          else
            let rest := downloadLoop fetch retries (attempt + 1) n'
            ⟨rest.ok, rest.attempts + 1, (1 + attempt) :: rest.sleeps, rest.written⟩) =
          ⟨true, m + 1 + 1, (List.range' attempt (m + 1)).map (fun i => 1 + i), some data⟩ := by
      rw [if_neg hlt]
      simp only [hrec, List.range'_succ]
      simp
    rcases hpre attempt (le_refl _) (by omega) with hf | ⟨c, hc, hf⟩
    · rw [downloadLoop, hf]
      simpa using hbranch
    · rw [downloadLoop, hf]
      simp only [hc, Bool.false_eq_true, if_false]
      simpa using hbranch

end Mirror

/-! ## The claims -/

namespace Mirror

/-- C4: for an HTML document at depth `d` below the site root (path parts =
`d` directory names followed by the file name), the computed relative assets
path is exactly `d` repetitions of `../` followed by `assets/`; in particular
depth 0 gives `assets/`, depth 1 gives `../assets/`, depth 2 gives
`../../assets/`. -/
theorem relative_assets_pfx_correct :
    (∀ (dirs : List Str) (fname : Str),
        relative_assets_pfx (dirs ++ [fname]) =
          (List.replicate dirs.length "../".toList).flatten ++ "assets/".toList) ∧
    relative_assets_pfx ["index.html".toList] = "assets/".toList ∧
    relative_assets_pfx ["news".toList, "a.html".toList] = "../assets/".toList ∧
    relative_assets_pfx ["x".toList, "y".toList, "b.html".toList] =
      "../../assets/".toList := by
  refine ⟨fun dirs fname => ?_, by decide, by decide, by decide⟩
  simp [relative_assets_pfx, strMulRep]

/-- C5: a fetch outcome in the client/not-found class (HTTP 400, 401, 403,
404) on the first attempt is not retried and fails immediately; an
all-failing fetch of any other kind is attempted `retries + 1` times with
sleeps of `1 + attempt` seconds between consecutive attempts; the
destination is written exactly when the download succeeds, with the bytes a
successful attempt returned; a permanent-class error at any attempt `k`
(after `k` retryable failures, `k ≤ retries`) stops the loop right there
with `k + 1` attempts, the partial sleep schedule `1, 2, ..., k`, and no
write; and a success at any attempt `k` stops with `k + 1` attempts, the
same partial sleep schedule, and the fetched bytes written. -/
theorem download_retry_policy :
    (∀ (fetch : Nat → FetchOutcome) (retries code : Nat),
        fetch 0 = FetchOutcome.httpError code → permanentCode code = true →
        download fetch retries = ⟨false, 1, [], none⟩) ∧
    (∀ (fetch : Nat → FetchOutcome) (retries : Nat),
        (∀ i, fetch i = FetchOutcome.failure ∨
          ∃ c, permanentCode c = false ∧ fetch i = FetchOutcome.httpError c) →
        download fetch retries =
          ⟨false, retries + 1, (List.range retries).map (fun i => 1 + i), none⟩) ∧
    (∀ (fetch : Nat → FetchOutcome) (retries : Nat),
        (download fetch retries).written.isSome = (download fetch retries).ok) ∧
    (∀ (fetch : Nat → FetchOutcome) (retries : Nat) (data : Str),
        (download fetch retries).written = some data →
        ∃ i, fetch i = FetchOutcome.success data) ∧
    (∀ (fetch : Nat → FetchOutcome) (retries k code : Nat),
        (∀ i, i < k →
          fetch i = FetchOutcome.failure ∨
            ∃ c, permanentCode c = false ∧ fetch i = FetchOutcome.httpError c) →
        fetch k = FetchOutcome.httpError code → permanentCode code = true →
        k ≤ retries →
        download fetch retries =
          ⟨false, k + 1, (List.range k).map (fun i => 1 + i), none⟩) ∧
    (∀ (fetch : Nat → FetchOutcome) (retries k : Nat) (data : Str),
        (∀ i, i < k →
          fetch i = FetchOutcome.failure ∨
            ∃ c, permanentCode c = false ∧ fetch i = FetchOutcome.httpError c) →
        fetch k = FetchOutcome.success data → k ≤ retries →
        download fetch retries =
          ⟨true, k + 1, (List.range k).map (fun i => 1 + i), some data⟩) := by
  refine ⟨?_, ?_, ?_, ?_, ?_, ?_⟩
  · intro fetch retries code hf hp
    rw [download, downloadLoop, hf]
    simp [hp]
  · intro fetch retries h
    have := downloadLoop_all_fail fetch retries h (retries + 1) 0 (by omega)
    rw [download, this]
    simp [List.range_eq_range']
  · intro fetch retries
    exact downloadLoop_written_isSome fetch retries (retries + 1) 0
  · intro fetch retries data hw
    exact downloadLoop_written_success fetch retries (retries + 1) 0 data hw
  · intro fetch retries k code hpre hk hp hle
    have := downloadLoop_stop_permanent fetch retries code hp k 0 (retries + 1)
      (fun i hi1 hi2 => hpre i (by omega)) (by simpa using hk) (by omega) (by omega)
    rw [download, this]
    simp [List.range_eq_range']
  · intro fetch retries k data hpre hk hle
    have := downloadLoop_stop_success fetch retries data k 0 (retries + 1)
      (fun i hi1 hi2 => hpre i (by omega)) (by simpa using hk) (by omega) (by omega)
    rw [download, this]
    simp [List.range_eq_range']

/-- Witness for C5 at concrete inputs: a 404 on the first attempt gives a
single un-retried failing attempt with no sleeps and no write; an
always-failing fetch with the default budget makes three attempts with
sleeps of 1 and 2 seconds; a transient failure followed by a 404 on the
second attempt stops after two attempts with the single sleep of 1 second
and no write; and two transient failures followed by a success on the third
attempt make three attempts with sleeps of 1 and 2 seconds and write the
fetched bytes. -/
theorem download_retry_policy_witness :
    download (fun _ => FetchOutcome.httpError 404) 2 = ⟨false, 1, [], none⟩ ∧
    download (fun _ => FetchOutcome.failure) 2 = ⟨false, 3, [1, 2], none⟩ ∧
    download (fun i => if i = 0 then FetchOutcome.failure else FetchOutcome.httpError 404) 2 =
      ⟨false, 2, [1], none⟩ ∧
    download (fun i => if i < 2 then FetchOutcome.failure
      else FetchOutcome.success "D".toList) 2 = ⟨true, 3, [1, 2], some "D".toList⟩ := by
  refine ⟨?_, ?_, ?_, ?_⟩
  · exact download_retry_policy.1 _ 2 404 rfl (by decide)
  · have h := download_retry_policy.2.1 (fun _ => FetchOutcome.failure) 2 (fun i => Or.inl rfl)
    simpa using h
  · have h := download_retry_policy.2.2.2.2.1
      (fun i => if i = 0 then FetchOutcome.failure else FetchOutcome.httpError 404) 2 1 404
      (fun i hi => by interval_cases i; exact Or.inl rfl) rfl (by decide) (by omega)
    simpa using h
  · have h := download_retry_policy.2.2.2.2.2
      (fun i => if i < 2 then FetchOutcome.failure else FetchOutcome.success "D".toList) 2 2
      "D".toList (fun i hi => by interval_cases i <;> exact Or.inl rfl) rfl (by omega)
    simpa using h

/-- C2: `_is_asset_url` accepts a URL exactly when it parses, its scheme is
`http` or `https`, its host is non-empty, the host is not in the fixed
denylist, the host does not end with the site's own domain, and the
lowercased extension of its path is in the fixed asset-extension allow-list;
it rejects every URL failing any one of these checks. -/
theorem is_asset_url_characterization (url : Str) :
    is_asset_url url = true ↔
      ∃ p, urlparse? url = some p ∧
        (p.scheme = "http".toList ∨ p.scheme = "https".toList) ∧
        hostnameOf p.netloc ≠ [] ∧
        hostnameOf p.netloc ∉ SKIP_HOSTS ∧
        siteHost.isSuffixOf (hostnameOf p.netloc) = false ∧
        lowerStr (pathSuffix p.path) ∈ ASSET_EXTENSIONS := by
  rw [is_asset_url]
  cases hp : urlparse? url with
  | none => simp
  | some p =>
    simp only [Option.some.injEq]
    constructor
    · intro h
      refine ⟨p, rfl, ?_⟩
      by_cases h1 : p.scheme = "http".toList ∨ p.scheme = "https".toList
      · rw [if_neg (not_not_intro h1)] at h
        by_cases h2 : hostnameOf p.netloc = [] ∨ hostnameOf p.netloc ∈ SKIP_HOSTS
        · rw [if_pos h2] at h; exact absurd h (by simp)
        · rw [if_neg h2] at h
          push_neg at h2
          by_cases h3 : siteHost.isSuffixOf (hostnameOf p.netloc) = true
          · rw [if_pos h3] at h; exact absurd h (by simp)
          · rw [if_neg h3] at h
            exact ⟨h1, h2.1, h2.2, Bool.eq_false_iff.mpr h3, of_decide_eq_true h⟩
      · rw [if_pos h1] at h
        exact absurd h (by simp)
    · rintro ⟨p', hpp, h1, h2, h3, h4, h5⟩
      obtain rfl : p' = p := hpp.symm
      rw [if_neg (not_not_intro h1), if_neg (by simp [h2, h3]), if_neg (by simp [h4])]
      exact decide_eq_true h5

/-- Witness for C2: the characterization is satisfiable; a CDN-hosted image
URL is accepted. -/
theorem is_asset_url_characterization_witness :
    is_asset_url "https://cdn.example.com/logo.png".toList = true :=
  (is_asset_url_characterization _).mpr
    ⟨⟨"https".toList, "cdn.example.com".toList, "/logo.png".toList, [], [], []⟩,
      by decide, by decide, by decide, by decide, by decide, by decide⟩

theorem splicedName_of_query {q : Str} (n : Str) (hq : q ≠ []) :
    splicedName n q =
      (splitextP n).1 ++ '.' :: ((sha256HexOfStr q).take 8 ++ (splitextP n).2) := by
  rw [splicedName, if_pos hq]
  by_cases he : (splitextP n).2 = []
  · simp [he]
  · simp [he]

/-- C3 (amended): `_safe_filename_from_url` computes exactly the reference
algorithm of the specification, and it is deterministic; two URLs with the
same parsed path and different non-empty query strings receive different
filenames provided their 8-character query digests differ and neither
spliced name exceeds the 180-character truncation threshold (the amendment:
the over-length truncation can cut the digest away, and an 8-hex-character
digest collision would also defeat the splice). -/
theorem safe_filename_correct :
    (∀ url : Str, safe_filename_from_url url = safe_filename_reference url) ∧
    (∀ url : Str, safe_filename_from_url url = safe_filename_from_url url) ∧
    (∀ (u1 u2 : Str) (p1 p2 : UrlParts),
        urlparse? u1 = some p1 → urlparse? u2 = some p2 →
        p1.path = p2.path → p1.query ≠ [] → p2.query ≠ [] →
        (sha256HexOfStr p1.query).take 8 ≠ (sha256HexOfStr p2.query).take 8 →
        pathName p1.path ≠ [] →
        (splicedName (sanitizeName (pathName p1.path)) p1.query).length ≤ 180 →
        (splicedName (sanitizeName (pathName p2.path)) p2.query).length ≤ 180 →
        safe_filename_from_url u1 ≠ safe_filename_from_url u2) := by
  have htr : ∀ (x : Str),
      (if x.length > 180 then (splitextP x).1.take 150 ++ (splitextP x).2 else x) =
        (if x.length ≤ 180 then x else (splitextP x).1.take 150 ++ (splitextP x).2) := by
    intro x
    by_cases hl : x.length ≤ 180
    · rw [if_neg (by omega), if_pos hl]
    · rw [if_pos (by omega), if_neg hl]
  refine ⟨?_, fun url => rfl, ?_⟩
  · intro url
    rw [safe_filename_from_url, safe_filename_reference]
    simp only []
    by_cases hb : pathName ((urlparse? url).getD ⟨[], [], [], [], [], []⟩).path = []
    · rw [if_pos hb, if_pos hb]
    · rw [if_neg hb, if_neg hb]
      by_cases hq : ((urlparse? url).getD ⟨[], [], [], [], [], []⟩).query = []
      · rw [splicedName, if_neg (not_not_intro hq), if_pos hq]
        exact htr _
      · rw [splicedName_of_query _ hq, if_neg hq]
        exact htr _
  · intro u1 u2 p1 p2 h1 h2 hpath hq1 hq2 hdig hname hl1 hl2
    have hname2 : pathName p2.path ≠ [] := by rw [← hpath]; exact hname
    have e1 : safe_filename_from_url u1 =
        splicedName (sanitizeName (pathName p1.path)) p1.query := by
      rw [safe_filename_from_url, h1]
      simp only [Option.getD_some]
      rw [if_neg hname, if_neg (by omega)]
    have e2 : safe_filename_from_url u2 =
        splicedName (sanitizeName (pathName p2.path)) p2.query := by
      rw [safe_filename_from_url, h2]
      simp only [Option.getD_some]
      rw [if_neg hname2, if_neg (by omega)]
    rw [e1, e2, splicedName_of_query _ hq1, splicedName_of_query _ hq2, ← hpath]
    intro heq
    apply hdig
    have h3 := List.append_cancel_left heq
    have h4 := (List.cons.inj h3).2
    exact List.append_cancel_right h4

/-- Counterexample to C3 as stated: these two URLs differ only in their query
strings (same scheme, netloc and path, different queries), yet
`_safe_filename_from_url` assigns them the same filename, because the
spliced names exceed 180 characters and the truncation to a 150-character
stem removes the query digest from both. -/
theorem safe_filename_query_collision :
    c3Url1 ≠ c3Url2 ∧
    (urlparse? c3Url1).map UrlParts.scheme = (urlparse? c3Url2).map UrlParts.scheme ∧
    (urlparse? c3Url1).map UrlParts.netloc = (urlparse? c3Url2).map UrlParts.netloc ∧
    (urlparse? c3Url1).map UrlParts.path = (urlparse? c3Url2).map UrlParts.path ∧
    (urlparse? c3Url1).map UrlParts.query ≠ (urlparse? c3Url2).map UrlParts.query ∧
    safe_filename_from_url c3Url1 = safe_filename_from_url c3Url2 := by
  exact ⟨by decide, by decide, by decide, by decide, by decide, by decide⟩

/-- Witness for C3 at concrete inputs: below the truncation threshold, two
URLs differing only in their query strings do get different filenames. -/
theorem safe_filename_correct_witness :
    safe_filename_from_url "https://h/a.png?v=1".toList ≠
      safe_filename_from_url "https://h/a.png?v=2".toList :=
  safe_filename_correct.2.2 _ _
    ⟨"https".toList, "h".toList, "/a.png".toList, [], "v=1".toList, []⟩
    ⟨"https".toList, "h".toList, "/a.png".toList, [], "v=2".toList, []⟩
    (by decide) (by decide) (by decide) (by decide) (by decide) (by decide)
    (by decide) (by decide) (by decide)

/-! ## Lemmas for C8: the URL scanner -/

theorem dropWhile_head_property {p : Char → Bool} :
    ∀ {l : List Char} {c : Char} {r : List Char}, l.dropWhile p = c :: r → p c = false := by
  intro l
  induction l with
  | nil => intro c r h; simp at h
  | cons x xs ih =>
    intro c r h
    rw [List.dropWhile_cons] at h
    by_cases hx : p x
    · rw [if_pos hx] at h
      exact ih h
    · rw [if_neg hx] at h
      rw [(List.cons.inj h).1] at hx
      simpa using hx

theorem urlMatchAt_some {pre t m rest' : Str} (h : urlMatchAt pre t = some (m, rest')) :
    ∃ body, t = m ++ rest' ∧ m = pre ++ body ∧ body ≠ [] ∧
      (∀ c ∈ body, isUrlTermChar c = false) ∧
      (rest' = [] ∨ ∃ c2 r2, rest' = c2 :: r2 ∧ isUrlTermChar c2 = true) := by
  rw [urlMatchAt] at h
  by_cases hpre : pre.isPrefixOf t
  · rw [if_pos hpre] at h
    obtain ⟨tail, rfl⟩ := List.isPrefixOf_iff_prefix.mp hpre
    rw [List.drop_left] at h
    by_cases hrun : tail.takeWhile (fun c => !isUrlTermChar c) = []
    · rw [if_pos hrun] at h
      exact absurd h (by simp)
    · rw [if_neg hrun] at h
      obtain ⟨hm, hr⟩ : pre ++ tail.takeWhile (fun c => !isUrlTermChar c) = m ∧
          tail.dropWhile (fun c => !isUrlTermChar c) = rest' := by
        have := Option.some.inj h
        exact ⟨congrArg Prod.fst this, congrArg Prod.snd this⟩
      refine ⟨tail.takeWhile (fun c => !isUrlTermChar c), ?_, hm.symm, hrun, ?_, ?_⟩
      · rw [← hm, ← hr, List.append_assoc, List.takeWhile_append_dropWhile]
      · intro c hc
        have := List.mem_takeWhile_imp hc
        simpa using this
      · rw [← hr]
        cases hd : tail.dropWhile (fun c => !isUrlTermChar c) with
        | nil => exact Or.inl rfl
        | cons c2 r2 =>
          refine Or.inr ⟨c2, r2, rfl, ?_⟩
          have := dropWhile_head_property hd
          simpa using this
  · rw [if_neg hpre] at h
    exact absurd h (by simp)

theorem urlScanAux_sound :
    ∀ (f : Nat) (t u : Str), u ∈ urlScanAux f t →
      ∃ pre body post, t = pre ++ u ++ post ∧
        (u = httpsPre ++ body ∨ u = httpPre ++ body) ∧ body ≠ [] ∧
        (∀ c ∈ body, isUrlTermChar c = false) ∧
        (post = [] ∨ ∃ c2 r2, post = c2 :: r2 ∧ isUrlTermChar c2 = true) := by
  intro f
  induction f with
  | zero => intro t u h; simp [urlScanAux] at h
  | succ g ih =>
    intro t u h
    cases t with
    | nil => simp [urlScanAux] at h
    | cons c rest =>
      rw [urlScanAux] at h
      cases hm1 : urlMatchAt httpsPre (c :: rest) with
      | some p1 =>
        obtain ⟨m1, r1⟩ := p1
        rw [hm1] at h
        obtain ⟨body, hteq, hmeq, hbne, hbchars, hmax⟩ := urlMatchAt_some hm1
        rcases List.mem_cons.mp h with rfl | htail
        · exact ⟨[], body, r1, by simpa using hteq, Or.inl hmeq, hbne, hbchars, hmax⟩
        · obtain ⟨pre2, body2, post2, hreq, hu2, hb2, hch2, hm2⟩ := ih r1 u htail
          exact ⟨m1 ++ pre2, body2, post2,
            by rw [hteq, hreq]; simp [List.append_assoc], hu2, hb2, hch2, hm2⟩
      | none =>
        rw [hm1] at h
        cases hm2 : urlMatchAt httpPre (c :: rest) with
        | some p1 =>
          obtain ⟨m1, r1⟩ := p1
          rw [hm2] at h
          obtain ⟨body, hteq, hmeq, hbne, hbchars, hmax⟩ := urlMatchAt_some hm2
          rcases List.mem_cons.mp h with rfl | htail
          · exact ⟨[], body, r1, by simpa using hteq, Or.inr hmeq, hbne, hbchars, hmax⟩
          · obtain ⟨pre2, body2, post2, hreq, hu2, hb2, hch2, hm2'⟩ := ih r1 u htail
            exact ⟨m1 ++ pre2, body2, post2,
              by rw [hteq, hreq]; simp [List.append_assoc], hu2, hb2, hch2, hm2'⟩
        | none =>
          rw [hm2] at h
          obtain ⟨pre2, body2, post2, hreq, hu2, hb2, hch2, hm2'⟩ := ih rest u h
          exact ⟨c :: pre2, body2, post2, by rw [hreq]; simp, hu2, hb2, hch2, hm2'⟩

/-- C8 (amended): URL extraction decodes HTML entities first and then
collects the non-overlapping left-to-right matches of the generic pattern; a
collected URL is a scheme literal `https://` or `http://` followed by a
non-empty run of non-terminator characters, maximal in the sense that the
match is followed by a terminator or the end of the text, where the
terminator set is quote, whitespace, angle bracket — and, as amended, also
the closing parenthesis.  CSS-discovered references are stripped, `data:`
URIs are skipped, protocol-relative `//` references are normalized to
`https:`, and every kept reference starts with `http://` or `https://`. -/
theorem extract_urls_characterization :
    (∀ t : Str, extract_urls_from_text t = dedupStrs (urlScan (unescapeHtml t))) ∧
    (∀ t u : Str, u ∈ urlScan t →
      ∃ pre body post, t = pre ++ u ++ post ∧
        (u = httpsPre ++ body ∨ u = httpPre ++ body) ∧ body ≠ [] ∧
        (∀ c ∈ body, isUrlTermChar c = false) ∧
        (post = [] ∨ ∃ c2 r2, post = c2 :: r2 ∧ isUrlTermChar c2 = true)) ∧
    (∀ c : Char, isUrlTermChar c = true ↔
      (c = '"' ∨ c = '\'' ∨ c = '<' ∨ c = '>' ∨ c = ')' ∨ isPyWhitespace c = true)) ∧
    (∀ raw u : Str, cssRawToUrl raw = some u →
      "data:".toList.isPrefixOf (pyStrip raw) = false ∧
      (if "//".toList.isPrefixOf (pyStrip raw) then u = "https:".toList ++ pyStrip raw
        else u = pyStrip raw) ∧
      ("http://".toList.isPrefixOf u ∨ "https://".toList.isPrefixOf u)) := by
  refine ⟨fun t => rfl, fun t u h => urlScanAux_sound t.length t u h, ?_, ?_⟩
  · intro c
    simp [isUrlTermChar, or_assoc]
  · intro raw u h
    rw [cssRawToUrl] at h
    by_cases hd : "data:".toList.isPrefixOf (pyStrip raw) = true
    · rw [if_pos hd] at h
      exact absurd h (by simp)
    · rw [if_neg hd] at h
      refine ⟨Bool.eq_false_iff.mpr hd, ?_, ?_⟩
      · by_cases hs : "//".toList.isPrefixOf (pyStrip raw) = true
        · rw [if_pos hs]
          rw [if_pos hs] at h
          by_cases hh : "http://".toList.isPrefixOf ("https:".toList ++ pyStrip raw) = true ∨
              "https://".toList.isPrefixOf ("https:".toList ++ pyStrip raw) = true
          · rw [if_pos (by simpa using hh)] at h
            exact (Option.some.inj h).symm
          · rw [if_neg (by simpa using hh)] at h
            exact absurd h (by simp)
        · rw [if_neg hs]
          rw [if_neg hs] at h
          by_cases hh : "http://".toList.isPrefixOf (pyStrip raw) = true ∨
              "https://".toList.isPrefixOf (pyStrip raw) = true
          · rw [if_pos (by simpa using hh)] at h
            exact (Option.some.inj h).symm
          · rw [if_neg (by simpa using hh)] at h
            exact absurd h (by simp)
      · by_cases hs : "//".toList.isPrefixOf (pyStrip raw) = true
        · rw [if_pos hs] at h
          by_cases hh : "http://".toList.isPrefixOf ("https:".toList ++ pyStrip raw) = true ∨
              "https://".toList.isPrefixOf ("https:".toList ++ pyStrip raw) = true
          · rw [if_pos (by simpa using hh)] at h
            rw [← Option.some.inj h]
            exact hh
          · rw [if_neg (by simpa using hh)] at h
            exact absurd h (by simp)
        · rw [if_neg hs] at h
          by_cases hh : "http://".toList.isPrefixOf (pyStrip raw) = true ∨
              "https://".toList.isPrefixOf (pyStrip raw) = true
          · rw [if_pos (by simpa using hh)] at h
            rw [← Option.some.inj h]
            exact hh
          · rw [if_neg (by simpa using hh)] at h
            exact absurd h (by simp)

/-- Counterexample to C8 as stated: with the spec's terminator set (quote,
space, angle bracket only), the scan of `a https://h/x).png b` would collect
`https://h/x).png`, but the code's `URL_RE` also terminates at a closing
parenthesis and collects `https://h/x`. -/
theorem extract_urls_paren_counterexample :
    urlScan "a https://h/x).png b".toList = ["https://h/x".toList] ∧
    specUrlScan "a https://h/x).png b".toList = ["https://h/x).png".toList] ∧
    specUrlScan "a https://h/x).png b".toList ≠ urlScan "a https://h/x).png b".toList := by
  exact ⟨by decide, by decide, by decide⟩

/-- Witness for C8 at a concrete input: the scan of a quoted stylesheet link
collects exactly the URL, which decomposes as the soundness statement
describes. -/
theorem extract_urls_characterization_witness :
    "https://a.b/c.css".toList ∈ urlScan "see \"https://a.b/c.css\" now".toList ∧
    ∃ pre body post, "see \"https://a.b/c.css\" now".toList =
        pre ++ "https://a.b/c.css".toList ++ post ∧
      ("https://a.b/c.css".toList = httpsPre ++ body ∨
        "https://a.b/c.css".toList = httpPre ++ body) ∧ body ≠ [] ∧
      (∀ c ∈ body, isUrlTermChar c = false) ∧
      (post = [] ∨ ∃ c2 r2, post = c2 :: r2 ∧ isUrlTermChar c2 = true) :=
  ⟨by decide, extract_urls_characterization.2.1 _ _ (by decide)⟩

/-! ## Lemmas for C10: the derived filename is a safe flat name -/

theorem hexDigit_prop (k : Nat) (hk : k < 16) :
    isSafeFilenameChar (hexDigit k) = true ∧ hexDigit k ≠ '.' := by
  interval_cases k <;> exact ⟨by decide, by decide⟩

theorem mem_toHexWord_prop {c : Char} {n : Nat} (h : c ∈ toHexWord n) :
    isSafeFilenameChar c = true ∧ c ≠ '.' := by
  rw [toHexWord] at h
  obtain ⟨i, -, rfl⟩ := List.mem_map.mp h
  exact hexDigit_prop _ (Nat.lt_succ_of_le (Nat.and_le_right))

theorem mem_sha256Hexdigest_prop {c : Char} {m : List Nat} (h : c ∈ sha256Hexdigest m) :
    isSafeFilenameChar c = true ∧ c ≠ '.' := by
  rw [sha256Hexdigest] at h
  obtain ⟨l, hl, hc⟩ := List.mem_flatten.mp h
  obtain ⟨w, -, rfl⟩ := List.mem_map.mp hl
  exact mem_toHexWord_prop hc

theorem sha256Words_length (m : List Nat) : (sha256Words m).length = 8 := by
  rw [sha256Words]
  have inv : ∀ (cs : List (List Nat)) (acc : List Nat), acc.length = 8 →
      (cs.foldl processChunk acc).length = 8 := by
    intro cs
    induction cs with
    | nil => intro acc h; exact h
    | cons ch rest ih =>
      intro acc h
      refine ih _ ?_
      rw [processChunk]
      simp [h, hash8ToList]
  exact inv _ _ rfl

theorem sha256Hexdigest_ne_nil (m : List Nat) : sha256Hexdigest m ≠ [] := by
  rw [sha256Hexdigest]
  have h8 := sha256Words_length m
  cases hw : sha256Words m with
  | nil => rw [hw] at h8; simp at h8
  | cons w ws =>
    intro hcontra
    simp only [List.map_cons, List.flatten_cons, List.append_eq_nil] at hcontra
    have hlen : (toHexWord w).length = 8 := by simp [toHexWord]
    rw [hcontra.1] at hlen
    simp at hlen

theorem mem_sanitizeName_prop {c : Char} {s : Str} (h : c ∈ sanitizeName s) :
    isSafeFilenameChar c = true := by
  rw [sanitizeName] at h
  obtain ⟨x, -, rfl⟩ := List.mem_map.mp h
  by_cases hx : isSafeFilenameChar x = true
  · simp [hx]
  · simp only [hx]
    rw [if_neg (by simp [hx])]
    decide

theorem splitextP_fst_subset {c : Char} {n : Str} (h : c ∈ (splitextP n).1) : c ∈ n := by
  rw [splitextP] at h
  rcases hd : lastIdxOf '.' n with - | d
  · rw [hd] at h; exact h
  · rw [hd] at h
    simp only [] at h
    split at h
    · exact List.mem_of_mem_take h
    · exact h

theorem splitextP_snd_subset {c : Char} {n : Str} (h : c ∈ (splitextP n).2) : c ∈ n := by
  rw [splitextP] at h
  rcases hd : lastIdxOf '.' n with - | d
  · rw [hd] at h; simp at h
  · rw [hd] at h
    simp only [] at h
    split at h
    · exact List.mem_of_mem_drop h
    · simp at h

theorem splitextP_append (n : Str) : (splitextP n).1 ++ (splitextP n).2 = n := by
  rw [splitextP]
  rcases hd : lastIdxOf '.' n with - | d
  · simp
  · simp only []
    split
    · exact List.take_append_drop d n
    · simp

theorem mem_splicedName_prop {c : Char} {n q : Str}
    (hn : ∀ x ∈ n, isSafeFilenameChar x = true) (h : c ∈ splicedName n q) :
    isSafeFilenameChar c = true := by
  by_cases hq : q = []
  · rw [splicedName, if_neg (not_not_intro hq)] at h
    exact hn c h
  · rw [splicedName_of_query _ hq] at h
    rcases List.mem_append.mp h with h1 | h2
    · exact hn c (splitextP_fst_subset h1)
    · rcases List.mem_cons.mp h2 with rfl | h3
      · decide
      · rcases List.mem_append.mp h3 with h4 | h5
        · exact (mem_sha256Hexdigest_prop (List.mem_of_mem_take h4)).1
        · exact hn c (splitextP_snd_subset h5)

theorem mem_of_ne_dot_trivia {l : List Char} {x : Char} (hx : x ∈ l) (hne : x ≠ '.') :
    l ≠ ['.'] ∧ l ≠ ['.', '.'] := by
  constructor
  · rintro rfl
    simp only [List.mem_singleton] at hx
    exact hne hx
  · rintro rfl
    rcases List.mem_cons.mp hx with rfl | hx2
    · exact hne rfl
    · rcases List.mem_cons.mp hx2 with rfl | hx3
      · exact hne rfl
      · simp at hx3

theorem pathSuffix_drop {p : Str} (h : pathSuffix p ≠ []) :
    ∃ i, pathSuffix p = (pathName p).drop i := by
  rw [pathSuffix] at h ⊢
  rcases hd : lastIdxOf '.' (pathName p) with - | i
  · rw [hd] at h
    exact absurd rfl h
  · rw [hd] at h
    by_cases hc : 0 < i ∧ i + 1 < (pathName p).length
    · refine ⟨i, ?_⟩
      show (if 0 < i ∧ i + 1 < (pathName p).length then (pathName p).drop i else []) =
        (pathName p).drop i
      rw [if_pos hc]
    · have h' : (if 0 < i ∧ i + 1 < (pathName p).length then (pathName p).drop i else []) ≠
          [] := h
      rw [if_neg hc] at h'
      exact absurd rfl h'

/-- C10: for every URL accepted by `_is_asset_url`, the derived filename is
non-empty, consists only of characters in `[A-Za-z0-9._-]` (in particular it
contains no `/`, no `\`, and no path separator of any kind), and is neither
`.` nor `..`, so `assets_dir / filename` is a direct child of the assets
directory and cannot escape it. -/
theorem safe_filename_is_flat (url : Str) (h : is_asset_url url = true) :
    safe_filename_from_url url ≠ [] ∧
    (∀ c ∈ safe_filename_from_url url, isSafeFilenameChar c = true) ∧
    '/' ∉ safe_filename_from_url url ∧ '\\' ∉ safe_filename_from_url url ∧
    safe_filename_from_url url ≠ ['.'] ∧ safe_filename_from_url url ≠ ['.', '.'] := by
  obtain ⟨p, hp, -, -, -, -, hext⟩ := (is_asset_url_characterization url).mp h
  have hsufne : pathSuffix p.path ≠ [] := by
    intro hsuf
    rw [hsuf] at hext
    exact absurd hext (by decide)
  have hname : pathName p.path ≠ [] := by
    intro hn
    apply hsufne
    rw [pathSuffix, hn]
    decide
  -- a character of the path suffix that is not a dot
  have hanyne : ∃ c ∈ pathSuffix p.path, c ≠ '.' := by
    have hall : ∀ e ∈ ASSET_EXTENSIONS, ∃ c ∈ e, c ≠ '.' := by decide
    obtain ⟨c', hc', hcne⟩ := hall _ hext
    obtain ⟨c, hc, rfl⟩ := List.mem_map.mp hc'
    refine ⟨c, hc, ?_⟩
    rintro rfl
    exact hcne rfl
  -- hence a non-dot character in the sanitized name
  have hsan : ∃ c ∈ sanitizeName (pathName p.path), c ≠ '.' := by
    obtain ⟨c, hc, hcne⟩ := hanyne
    obtain ⟨i, hi⟩ := pathSuffix_drop hsufne
    rw [hi] at hc
    have hcmem : c ∈ pathName p.path := List.mem_of_mem_drop hc
    refine ⟨if isSafeFilenameChar c then c else '_', ?_, ?_⟩
    · rw [sanitizeName]
      exact List.mem_map.mpr ⟨c, hcmem, rfl⟩
    · by_cases hcs : isSafeFilenameChar c = true
      · simpa [hcs] using hcne
      · simp only [hcs]
        rw [if_neg (by simp [hcs])]
        decide
  have hspl : ∃ c ∈ splicedName (sanitizeName (pathName p.path)) p.query, c ≠ '.' := by
    by_cases hq : p.query = []
    · rw [splicedName, if_neg (not_not_intro hq)]
      exact hsan
    · rw [splicedName_of_query _ hq]
      have hqh : (sha256HexOfStr p.query).take 8 ≠ [] := by
        rw [sha256HexOfStr]
        intro hc
        rcases List.take_eq_nil_iff.mp hc with h8 | hnil
        · simp at h8
        · exact sha256Hexdigest_ne_nil _ hnil
      obtain ⟨c0, hc0⟩ := List.exists_mem_of_ne_nil _ hqh
      refine ⟨c0, by simp [hc0], (mem_sha256Hexdigest_prop (List.mem_of_mem_take hc0)).2⟩
  have hchars : ∀ c ∈ splicedName (sanitizeName (pathName p.path)) p.query,
      isSafeFilenameChar c = true :=
    fun c hc => mem_splicedName_prop (fun x hx => mem_sanitizeName_prop hx) hc
  have hne2 : splicedName (sanitizeName (pathName p.path)) p.query ≠ [] := by
    obtain ⟨c, hc, -⟩ := hspl
    intro hnil
    rw [hnil] at hc
    simp at hc
  have hfeq : safe_filename_from_url url =
      (if (splicedName (sanitizeName (pathName p.path)) p.query).length > 180 then
        (splitextP (splicedName (sanitizeName (pathName p.path)) p.query)).1.take 150 ++
          (splitextP (splicedName (sanitizeName (pathName p.path)) p.query)).2
      else splicedName (sanitizeName (pathName p.path)) p.query) := by
    rw [safe_filename_from_url, hp]
    simp only [Option.getD_some]
    rw [if_neg hname]
  by_cases hlen : (splicedName (sanitizeName (pathName p.path)) p.query).length > 180
  · -- truncation branch: the result keeps at least 150 characters
    rw [hfeq, if_pos hlen]
    set n2 := splicedName (sanitizeName (pathName p.path)) p.query with hn2
    have hlen2 : ((splitextP n2).1.take 150 ++ (splitextP n2).2).length ≥ 150 := by
      have hsum : (splitextP n2).1.length + (splitextP n2).2.length = n2.length := by
        rw [← List.length_append, splitextP_append]
      by_cases h150 : (splitextP n2).1.length ≥ 150
      · simp only [List.length_append, List.length_take]
        omega
      · simp only [List.length_append, List.length_take]
        omega
    have hsub : ∀ c ∈ (splitextP n2).1.take 150 ++ (splitextP n2).2,
        isSafeFilenameChar c = true := by
      intro c hc
      rcases List.mem_append.mp hc with h1 | h2
      · exact hchars c (splitextP_fst_subset (List.mem_of_mem_take h1))
      · exact hchars c (splitextP_snd_subset h2)
    refine ⟨?_, hsub, ?_, ?_, ?_, ?_⟩
    · intro hnil
      rw [hnil] at hlen2
      simp at hlen2
    · intro hmem
      exact absurd (hsub _ hmem) (by decide)
    · intro hmem
      exact absurd (hsub _ hmem) (by decide)
    · intro heq
      rw [heq] at hlen2
      simp at hlen2
    · intro heq
      rw [heq] at hlen2
      simp at hlen2
  · rw [hfeq, if_neg hlen]
    obtain ⟨c0, hc0, hc0ne⟩ := hspl
    refine ⟨hne2, hchars, ?_, ?_, ?_, ?_⟩
    · intro hmem
      exact absurd (hchars _ hmem) (by decide)
    · intro hmem
      exact absurd (hchars _ hmem) (by decide)
    · exact (mem_of_ne_dot_trivia hc0 hc0ne).1
    · exact (mem_of_ne_dot_trivia hc0 hc0ne).2

/-- Witness for C10 at a concrete accepted URL. -/
theorem safe_filename_is_flat_witness :
    is_asset_url "https://cdn.x/img/a b%.png?v=1".toList = true ∧
    (safe_filename_from_url "https://cdn.x/img/a b%.png?v=1".toList ≠ [] ∧
      (∀ c ∈ safe_filename_from_url "https://cdn.x/img/a b%.png?v=1".toList,
        isSafeFilenameChar c = true) ∧
      '/' ∉ safe_filename_from_url "https://cdn.x/img/a b%.png?v=1".toList ∧
      '\\' ∉ safe_filename_from_url "https://cdn.x/img/a b%.png?v=1".toList ∧
      safe_filename_from_url "https://cdn.x/img/a b%.png?v=1".toList ≠ ['.'] ∧
      safe_filename_from_url "https://cdn.x/img/a b%.png?v=1".toList ≠ ['.', '.']) :=
  ⟨by decide, safe_filename_is_flat _ (by decide)⟩

end Mirror

namespace Branding

open Mirror (Str)

theorem validateGo_none_iff (fsExists : Str → Bool) (keys : List Str) :
    ∀ (m : List (Str × Str)) (targets : List Str),
      validateGo fsExists keys targets m = none ↔
        ((∀ p ∈ m, p.1 ≠ p.2) ∧
         ((m.map Prod.snd).Nodup ∧ ∀ d ∈ m.map Prod.snd, d ∉ targets) ∧
         (∀ p ∈ m, fsExists p.2 = true → p.2 ∈ keys)) := by
  intro m
  induction m with
  | nil => intro targets; simp [validateGo]
  | cons p rest ih =>
    intro targets
    show (if p.1 = p.2 then some (RenameError.noopRename p.1)
      else if p.2 ∈ targets then some (RenameError.duplicateTarget p.2)
      else if fsExists p.2 = true ∧ p.2 ∉ keys then some (RenameError.destinationExists p.2)
      else validateGo fsExists keys (p.2 :: targets) rest) = none ↔ _
    by_cases h1 : p.1 = p.2
    · rw [if_pos h1]
      simp only [reduceCtorEq, false_iff]
      rintro ⟨hno, -, -⟩
      exact hno p (by simp) h1
    · rw [if_neg h1]
      by_cases h2 : p.2 ∈ targets
      · rw [if_pos h2]
        simp only [reduceCtorEq, false_iff]
        rintro ⟨-, ⟨-, hd⟩, -⟩
        exact hd p.2 (by simp) h2
      · rw [if_neg h2]
        by_cases h3 : fsExists p.2 = true ∧ p.2 ∉ keys
        · rw [if_pos h3]
          simp only [reduceCtorEq, false_iff]
          rintro ⟨-, -, hk⟩
          exact h3.2 (hk p (by simp) h3.1)
        · rw [if_neg h3]
          rw [ih (p.2 :: targets)]
          constructor
          · rintro ⟨ha, ⟨hb, hc⟩, hd⟩
            refine ⟨?_, ⟨?_, ?_⟩, ?_⟩
            · intro q hq
              rcases List.mem_cons.mp hq with rfl | hq'
              · exact h1
              · exact ha q hq'
            · rw [List.map_cons]
              refine List.nodup_cons.mpr ⟨?_, hb⟩
              intro hmem
              exact (hc p.2 hmem) (by simp)
            · intro d hd'
              rw [List.map_cons] at hd'
              rcases List.mem_cons.mp hd' with rfl | hd''
              · exact h2
              · intro hdt
                exact (hc d hd'') (by simp [hdt])
            · intro q hq hfs
              rcases List.mem_cons.mp hq with rfl | hq'
              · by_contra hk
                exact h3 ⟨hfs, hk⟩
              · exact hd q hq' hfs
          · rintro ⟨ha, ⟨hb, hc⟩, hd⟩
            rw [List.map_cons] at hb hc
            refine ⟨fun q hq => ha q (by simp [hq]), ⟨(List.nodup_cons.mp hb).2, ?_⟩,
              fun q hq => hd q (by simp [hq])⟩
            intro d hd' hdt
            rcases List.mem_cons.mp hdt with rfl | hdt'
            · exact (List.nodup_cons.mp hb).1 hd'
            · exact (hc d (by simp [hd'])) hdt'

/-- C9: the rename plan passes validation exactly when no rename maps a
source to itself, no two renames target the same destination, and no
destination that already exists on disk lacks a planned rename away from it;
a validation error makes `main` abort (`SystemExit`) before emitting any
filesystem action, so no file content is written and no file renamed, and any
action list `main` produces presupposes a validated plan. -/
theorem validate_rename_map_correct :
    (∀ (fsExists : Str → Bool) (m : List (Str × Str)),
        validate_rename_map fsExists m = none ↔
          ((∀ p ∈ m, p.1 ≠ p.2) ∧ (m.map Prod.snd).Nodup ∧
           (∀ p ∈ m, fsExists p.2 = true → p.2 ∈ m.map Prod.fst))) ∧
    (∀ (fsExists : Str → Bool) (m : List (Str × Str)) (applyMode : Bool)
        (changedFiles : List Str),
        validate_rename_map fsExists m ≠ none →
        branding_main_acts fsExists m applyMode changedFiles = none) ∧
    (∀ (fsExists : Str → Bool) (m : List (Str × Str)) (applyMode : Bool)
        (changedFiles : List Str) (acts : List BrandingAct),
        branding_main_acts fsExists m applyMode changedFiles = some acts →
        validate_rename_map fsExists m = none) := by
  refine ⟨?_, ?_, ?_⟩
  · intro fsExists m
    rw [validate_rename_map, validateGo_none_iff]
    simp
  · intro fsExists m applyMode changedFiles h
    rw [branding_main_acts]
    cases hv : validate_rename_map fsExists m with
    | none => exact absurd hv h
    | some e => rfl
  · intro fsExists m applyMode changedFiles acts h
    rw [branding_main_acts] at h
    cases hv : validate_rename_map fsExists m with
    | none => rfl
    | some e => rw [hv] at h; exact absurd h (by simp)

/-- Witness for C9: a concrete conflict-free plan validates and, in apply
mode, produces its actions; a self-rename aborts with no actions. -/
theorem validate_rename_map_correct_witness :
    validate_rename_map (fun _ => false) [("a".toList, "b".toList)] = none ∧
    branding_main_acts (fun _ => true) [("x".toList, "x".toList)] true ["d".toList] = none :=
  ⟨(validate_rename_map_correct.1 _ _).mpr ⟨by decide, by decide, by decide⟩,
   validate_rename_map_correct.2.1 _ _ _ _ (by decide)⟩

end Branding

/-! ## Lemmas about the pipeline rewrites -/

namespace Mirror

theorem isPrefixOfCI_infix {pre t : Str} (h : isPrefixOfCI pre t = true) :
    pre <:+: lowerStr t := by
  rw [isPrefixOfCI] at h
  have h1 := of_decide_eq_true h
  have h2 : pre <+: lowerStr t := by
    rw [← h1]
    exact (List.take_prefix _ _).map _
  exact h2.isInfix

theorem brokenMatchAt_none {t : Str} (h : ¬ siteHost <:+: lowerStr t) :
    brokenMatchAt t = none := by
  have h1 : isPrefixOfCI brokenHostHttps t = false := by
    by_contra hb
    have hci := isPrefixOfCI_infix (Bool.not_eq_false _ ▸ hb)
    exact h ((show siteHost <:+: brokenHostHttps by decide).trans hci)
  have h2 : isPrefixOfCI brokenHostHttp t = false := by
    by_contra hb
    have hci := isPrefixOfCI_infix (Bool.not_eq_false _ ▸ hb)
    exact h ((show siteHost <:+: brokenHostHttp by decide).trans hci)
  rw [brokenMatchAt]
  simp [h1, h2]

theorem brokenSubAux_id : ∀ (f : Nat) {t : Str}, ¬ siteHost <:+: lowerStr t →
    brokenSubAux f t = t := by
  intro f
  induction f with
  | zero => intro t _; rfl
  | succ g ih =>
    intro t h
    cases t with
    | nil => rfl
    | cons c rest =>
      rw [brokenSubAux, brokenMatchAt_none h]
      have hrest : ¬ siteHost <:+: lowerStr rest := by
        intro hi
        apply h
        refine hi.trans ?_
        show List.map Char.toLower rest <:+: lowerStr (c :: rest)
        rw [lowerStr, List.map_cons]
        exact (List.suffix_cons _ _).isInfix
      rw [ih hrest]

theorem brokenSub_id {t : Str} (h : ¬ siteHost <:+: lowerStr t) : brokenSub t = t :=
  brokenSubAux_id t.length h

theorem rewrite_in_file_content_nil (c : Str) :
    rewrite_in_file_content c [] = brokenSub c := rfl

theorem nested_refs_fix_id {pfx c : Str} (h : ∀ p ∈ nestedTriggerPairs, ¬ p.1 <:+: c) :
    nested_refs_fix pfx c = c := by
  rw [nested_refs_fix]
  split
  · rfl
  · exact foldl_pyReplace_id _ h

theorem cssCollapse_id {c : Str} (h1 : ¬ "url(\"assets/".toList <:+: c)
    (h2 : ¬ "url('assets/".toList <:+: c) (h3 : ¬ "url(assets/".toList <:+: c) :
    cssCollapse c = c := by
  rw [cssCollapse, pyReplace_of_not_infix _ h1, pyReplace_of_not_infix _ h2,
    pyReplace_of_not_infix _ h3]

theorem download_netFetch_none {net : Str → Option Str} {u : Str} (h : net u = none) :
    (download (netFetch net u) 2).written = none := by
  have hf : ∀ i, netFetch net u i = FetchOutcome.failure := by
    intro i
    rw [netFetch, h]
  have hres := downloadLoop_all_fail (netFetch net u) 2 (fun i => Or.inl (hf i)) 3 0 (by omega)
  rw [download, hres]

theorem pass1_all_fail {net : Str → Option Str} :
    ∀ (urls : List Str) (A : List (Str × Str)) (d fcnt : Nat),
      (∀ u ∈ urls, destNonEmpty A (safe_filename_from_url u) = false ∧ net u = none) →
      urls.foldl (pass1Step net) ⟨A, [], d, fcnt⟩ = ⟨A, [], d, fcnt + urls.length⟩ := by
  intro urls
  induction urls with
  | nil => intro A d fcnt _; simp
  | cons u rest ih =>
    intro A d fcnt h
    have hd := (h u (by simp)).1
    have hn := (h u (by simp)).2
    rw [List.foldl_cons]
    have hstep : pass1Step net ⟨A, [], d, fcnt⟩ u = ⟨A, [], d, fcnt + 1⟩ := by
      rw [pass1Step]
      simp only [hd, Bool.false_eq_true, if_false]
      rw [download_netFetch_none hn]
    rw [hstep, ih A d (fcnt + 1) (fun v hv => h v (by simp [hv]))]
    simp only [List.length_cons]
    congr 1
    omega

theorem pass5_all_fail {net : Str → Option Str} :
    ∀ (urls : List Str) (st : DlState),
      (∀ u ∈ urls, destNonEmpty st.assets (safe_filename_from_url u) = false ∧ net u = none) →
      urls.foldl (pass5Step net) st = st := by
  intro urls
  induction urls with
  | nil => intro st _; rfl
  | cons u rest ih =>
    intro st h
    have hd := (h u (by simp)).1
    have hn := (h u (by simp)).2
    rw [List.foldl_cons]
    have hstep : pass5Step net st u = st := by
      rw [pass5Step]
      simp only [hd, Bool.not_false, if_true]
      rw [download_netFetch_none hn]
    rw [hstep]
    exact ih st (fun v hv => h v (by simp [hv]))

theorem rewriteHtmlFile_id {f : List Str × Str}
    (h1 : ¬ siteHost <:+: lowerStr f.2) (h2 : ∀ p ∈ nestedTriggerPairs, ¬ p.1 <:+: f.2) :
    rewriteHtmlFile [] f = (f, false) := by
  rw [rewriteHtmlFile]
  rw [rewrite_in_file_content_nil, brokenSub_id h1, nested_refs_fix_id h2]
  simp

theorem rewriteCssFile_id {assets : List (Str × Str)} {n : Str}
    (h1 : ¬ siteHost <:+: lowerStr (contentOf assets n))
    (h2 : ¬ "url(\"assets/".toList <:+: contentOf assets n)
    (h3 : ¬ "url('assets/".toList <:+: contentOf assets n)
    (h4 : ¬ "url(assets/".toList <:+: contentOf assets n) :
    rewriteCssFile [] assets n = (assets, false) := by
  rw [rewriteCssFile]
  rw [rewrite_in_file_content_nil, brokenSub_id h1]
  simp only [ne_eq, not_true_eq_false, if_false, ite_false, if_neg (not_not_intro rfl)]
  rw [cssCollapse_id h2 h3 h4]
  simp

theorem rewriteJsFile_id {assets : List (Str × Str)} {n : Str}
    (h1 : ¬ siteHost <:+: lowerStr (contentOf assets n)) :
    rewriteJsFile [] assets n = (assets, false) := by
  rw [rewriteJsFile]
  rw [rewrite_in_file_content_nil, brokenSub_id h1]
  simp

theorem map_fst_filter_snd {α : Type} (l : List α) (g : α → α × Bool)
    (hg : ∀ x ∈ l, g x = (x, false)) :
    (l.map g).map Prod.fst = l ∧ ((l.map g).filter Prod.snd).length = 0 := by
  induction l with
  | nil => exact ⟨rfl, rfl⟩
  | cons x rest ih =>
    obtain ⟨ih1, ih2⟩ := ih (fun y hy => hg y (by simp [hy]))
    rw [List.map_cons, hg x (by simp)]
    constructor
    · rw [List.map_cons, ih1]
    · rw [List.filter_cons]
      simp only [Bool.false_eq_true, if_false]
      exact ih2

theorem cssFold_id (names : List Str) (A : List (Str × Str)) (k : Nat)
    (h : ∀ n ∈ names,
      ¬ siteHost <:+: lowerStr (contentOf A n) ∧
      ¬ "url(\"assets/".toList <:+: contentOf A n ∧
      ¬ "url('assets/".toList <:+: contentOf A n ∧
      ¬ "url(assets/".toList <:+: contentOf A n) :
    names.foldl
      (fun (acc : List (Str × Str) × Nat) n =>
        let r := rewriteCssFile [] acc.1 n
        (r.1, acc.2 + if r.2 then 1 else 0)) (A, k) = (A, k) := by
  induction names generalizing k with
  | nil => rfl
  | cons n rest ih =>
    rw [List.foldl_cons]
    obtain ⟨h1, h2, h3, h4⟩ := h n (by simp)
    simp only [rewriteCssFile_id h1 h2 h3 h4]
    exact ih _ (fun m hm => h m (by simp [hm]))

theorem jsFold_id (names : List Str) (A : List (Str × Str)) (k : Nat)
    (h : ∀ n ∈ names, ¬ siteHost <:+: lowerStr (contentOf A n)) :
    names.foldl
      (fun (acc : List (Str × Str) × Nat) n =>
        let r := rewriteJsFile [] acc.1 n
        (r.1, acc.2 + if r.2 then 1 else 0)) (A, k) = (A, k) := by
  induction names generalizing k with
  | nil => rfl
  | cons n rest ih =>
    rw [List.foldl_cons]
    simp only [rewriteJsFile_id (h n (by simp))]
    exact ih _ (fun m hm => h m (by simp [hm]))

theorem dictInsert_mem {k v : Str} {d : List (Str × Str)} {p : Str × Str}
    (h : p ∈ dictInsert k v d) : p = (k, v) ∨ p ∈ d := by
  induction d with
  | nil => simpa [dictInsert] using h
  | cons q rest ih =>
    rw [dictInsert] at h
    by_cases hq : q.1 = k
    · rw [if_pos hq] at h
      rcases List.mem_cons.mp h with rfl | hr
      · exact Or.inl rfl
      · exact Or.inr (by simp [hr])
    · rw [if_neg hq] at h
      rcases List.mem_cons.mp h with rfl | hr
      · exact Or.inr (by simp)
      · rcases ih hr with h1 | h2
        · exact Or.inl h1
        · exact Or.inr (by simp [h2])

theorem pass1_fbu_inv {net : Str → Option Str} :
    ∀ (urls : List Str) (st : DlState),
      (∀ p ∈ st.fbu, p.2 = safe_filename_from_url p.1) →
      ∀ p ∈ (urls.foldl (pass1Step net) st).fbu, p.2 = safe_filename_from_url p.1 := by
  intro urls
  induction urls with
  | nil => intro st h; exact h
  | cons u rest ih =>
    intro st h
    rw [List.foldl_cons]
    refine ih _ ?_
    intro p hp
    rw [pass1Step] at hp
    by_cases hd : destNonEmpty st.assets (safe_filename_from_url u) = true
    · rw [if_pos hd] at hp
      simp only [] at hp
      rcases dictInsert_mem hp with rfl | hmem
      · rfl
      · exact h p hmem
    · rw [if_neg hd] at hp
      cases hw : (download (netFetch net u) 2).written with
      | some data =>
        rw [hw] at hp
        simp only [] at hp
        rcases dictInsert_mem hp with rfl | hmem
        · rfl
        · exact h p hmem
      | none =>
        rw [hw] at hp
        exact h p hp

theorem pass5_fbu_inv {net : Str → Option Str} :
    ∀ (urls : List Str) (st : DlState),
      (∀ p ∈ st.fbu, p.2 = safe_filename_from_url p.1) →
      ∀ p ∈ (urls.foldl (pass5Step net) st).fbu, p.2 = safe_filename_from_url p.1 := by
  intro urls
  induction urls with
  | nil => intro st h; exact h
  | cons u rest ih =>
    intro st h
    rw [List.foldl_cons]
    refine ih _ ?_
    intro p hp
    rw [pass5Step] at hp
    by_cases hd : destNonEmpty st.assets (safe_filename_from_url u) = true
    · rw [if_neg (by simp [hd])] at hp
      simp only [] at hp
      rcases dictInsert_mem hp with rfl | hmem
      · rfl
      · exact h p hmem
    · rw [if_pos (by simp [Bool.eq_false_iff.mpr hd])] at hp
      cases hw : (download (netFetch net u) 2).written with
      | some data =>
        rw [hw] at hp
        simp only [] at hp
        rcases dictInsert_mem hp with rfl | hmem
        · rfl
        · exact h p hmem
      | none =>
        rw [hw] at hp
        exact h p hp

end Mirror

namespace Mirror

/-- C7: in pass 2 the replacement targets are the bare filenames — every
entry of the final URL-to-filename mapping (which is exactly the replacement
map applied to documents stored inside the assets directory) maps a URL to
`_safe_filename_from_url` of that URL, with no `assets/` prefix; the
stylesheet collapse strips the redundant `assets/` segment of a
`url("assets/...` occurrence and continues on the rest; and end-to-end, a
stylesheet at `root/assets/site.css` containing `url("assets/bg.png")` ends
the run containing `url("bg.png")`. -/
theorem assets_rewrite_bare_targets :
    (∀ (net : Str → Option Str) (argvLen : Nat) (rootExists rootIsDir : Bool) (s : Site),
        ∀ p ∈ (mirror_main net argvLen rootExists rootIsDir s).2.mapping,
          p.2 = safe_filename_from_url p.1) ∧
    (∀ b : Str,
        pyReplace ("url(\"assets/".toList ++ b) "url(\"assets/".toList "url(\"".toList =
          "url(\"".toList ++ pyReplace b "url(\"assets/".toList "url(\"".toList) ∧
    dictFind "site.css".toList (mirror_main (fun _ => none) 2 true true c7Site).1.assets =
      some "url(\"bg.png\")".toList ∧
    (mirror_main (fun _ => none) 2 true true c7Site).2.rewrittenCss = 1 := by
  refine ⟨?_, fun b => pyReplace_head_match (by decide) _ b, by decide, by decide⟩
  intro net argvLen re rd s p hp
  rw [mirror_main] at hp
  split_ifs at hp
  · simp [earlyExitStats] at hp
  · simp [earlyExitStats] at hp
  · simp [earlyExitStats] at hp
  · exact pass5_fbu_inv _ _ (pass1_fbu_inv _ _ (by simp)) p hp

/-- Witness for C7 at a concrete run: a downloaded image is mapped, and its
mapping value is the bare derived filename. -/
theorem assets_rewrite_bare_targets_witness :
    ("https://cdn.example.com/logo.png".toList, "logo.png".toList) ∈
      (mirror_main c7Net 2 true true c7WitnessSite).2.mapping ∧
    ("logo.png".toList : Str) =
      safe_filename_from_url "https://cdn.example.com/logo.png".toList :=
  ⟨by decide,
   assets_rewrite_bare_targets.1 c7Net 2 true true c7WitnessSite
     ("https://cdn.example.com/logo.png".toList, "logo.png".toList) (by decide)⟩

/-- C6 (amended): the process exits with code 2, before performing any
download or rewrite, exactly when the argument count is wrong (a missing
argument or extra arguments), the root path does not exist, it is not a
directory, or no HTML files are found; on a valid invocation it always
completes with exit code 0; and with a failing network and no pre-existing
destination files, every asset URL is excluded from the replacement map
while the failure counter counts each of them, still with exit code 0. -/
theorem main_exit_and_failure_semantics :
    (∀ (net : Str → Option Str) (argvLen : Nat) (re rd : Bool) (s : Site),
        ((mirror_main net argvLen re rd s).2.exitCode = 2 ↔
          (argvLen ≠ 2 ∨ re = false ∨ rd = false ∨ s.html = []))) ∧
    (∀ (net : Str → Option Str) (argvLen : Nat) (re rd : Bool) (s : Site),
        (argvLen ≠ 2 ∨ re = false ∨ rd = false ∨ s.html = []) →
        mirror_main net argvLen re rd s = (s, earlyExitStats)) ∧
    (∀ (net : Str → Option Str) (argvLen : Nat) (re rd : Bool) (s : Site),
        argvLen = 2 → re = true → rd = true → s.html ≠ [] →
        (mirror_main net argvLen re rd s).2.exitCode = 0) ∧
    (∀ (net : Str → Option Str) (s : Site),
        (∀ u, net u = none) →
        (∀ u ∈ assetUrlsOfHtml s.html,
          destNonEmpty s.assets (safe_filename_from_url u) = false) →
        (∀ u ∈ discoveredAssetUrls (fileNamesWithSuffix ".css".toList s.assets)
            (fileNamesWithSuffix ".js".toList s.assets) s.assets,
          destNonEmpty s.assets (safe_filename_from_url u) = false) →
        s.html ≠ [] →
        ((mirror_main net 2 true true s).2.exitCode = 0 ∧
         (mirror_main net 2 true true s).2.mapping = [] ∧
         (mirror_main net 2 true true s).2.downloaded = 0 ∧
         (mirror_main net 2 true true s).2.failed = (assetUrlsOfHtml s.html).length)) := by
  have hearly : ∀ (net : Str → Option Str) (argvLen : Nat) (re rd : Bool) (s : Site),
      (argvLen ≠ 2 ∨ re = false ∨ rd = false ∨ s.html = []) →
      mirror_main net argvLen re rd s = (s, earlyExitStats) := by
    intro net argvLen re rd s h
    rw [mirror_main]
    split_ifs with ha hb hc
    · rfl
    · rfl
    · rfl
    · exfalso
      rcases h with h | h | h | h
      · exact ha h
      · rw [h] at hb; simp at hb
      · rw [h] at hb; simp at hb
      · exact hc h
  have hgood : ∀ (net : Str → Option Str) (argvLen : Nat) (re rd : Bool) (s : Site),
      argvLen = 2 → re = true → rd = true → s.html ≠ [] →
      (mirror_main net argvLen re rd s).2.exitCode = 0 := by
    intro net argvLen re rd s ha hb hc hd
    subst ha; subst hb; subst hc
    rw [mirror_main]
    rw [if_neg (by simp), if_neg (by simp), if_neg hd]
  refine ⟨?_, hearly, hgood, ?_⟩
  · intro net argvLen re rd s
    constructor
    · intro hexit
      by_cases h : argvLen ≠ 2 ∨ re = false ∨ rd = false ∨ s.html = []
      · exact h
      · exfalso
        push_neg at h
        obtain ⟨ha, hb, hc, hd⟩ := h
        have := hgood net argvLen re rd s ha
          (by cases re with | true => rfl | false => exact absurd rfl hb)
          (by cases rd with | true => rfl | false => exact absurd rfl hc) hd
        rw [this] at hexit
        simp at hexit
    · intro h
      rw [hearly net argvLen re rd s h]
      rfl
  · intro net s hnet h1 h5 hne
    have hfold1 : (assetUrlsOfHtml s.html).foldl (pass1Step net) ⟨s.assets, [], 0, 0⟩ =
        ⟨s.assets, [], 0, 0 + (assetUrlsOfHtml s.html).length⟩ :=
      pass1_all_fail _ _ _ _ (fun u hu => ⟨h1 u hu, hnet u⟩)
    have hfold2 : (discoveredAssetUrls (fileNamesWithSuffix ".css".toList s.assets)
          (fileNamesWithSuffix ".js".toList s.assets) s.assets).foldl (pass5Step net)
          (⟨s.assets, [], 0, 0 + (assetUrlsOfHtml s.html).length⟩ : DlState) =
        ⟨s.assets, [], 0, 0 + (assetUrlsOfHtml s.html).length⟩ :=
      pass5_all_fail _ _ (fun u hu => ⟨h5 u hu, hnet u⟩)
    rw [mirror_main, if_neg (by simp), if_neg (by simp), if_neg hne]
    simp only [hfold1, hfold2]
    simp

/-- Counterexample to C6 as stated: invoked with two extra-argument words
(`len(sys.argv) = 3`) on an existing directory with HTML files, the process
still exits with code 2 although none of the four listed conditions holds
(the root-path argument is present, the path exists, it is a directory, and
HTML files are found). -/
theorem main_exit_extra_arg :
    (mirror_main (fun _ => none) 3 true true c6Site).2.exitCode = 2 ∧
    ¬(3 < 2) ∧ c6Site.html ≠ [] := by
  exact ⟨by decide, by decide, by decide⟩

/-- Witness for C6 at a concrete run: one asset URL whose download fails is
excluded from the mapping, counted as failed, and the run exits 0. -/
theorem main_exit_and_failure_semantics_witness :
    (mirror_main (fun _ => none) 2 true true c6Site).2.exitCode = 0 ∧
    (mirror_main (fun _ => none) 2 true true c6Site).2.mapping = [] ∧
    (mirror_main (fun _ => none) 2 true true c6Site).2.downloaded = 0 ∧
    (mirror_main (fun _ => none) 2 true true c6Site).2.failed =
      (assetUrlsOfHtml c6Site.html).length :=
  main_exit_and_failure_semantics.2.2.2 (fun _ => none) c6Site (fun _ => rfl)
    (by decide) (by
      intro u hu
      have hd : discoveredAssetUrls (fileNamesWithSuffix ".css".toList c6Site.assets)
          (fileNamesWithSuffix ".js".toList c6Site.assets) c6Site.assets = [] := by decide
      rw [hd] at hu
      exact absurd hu (List.not_mem_nil u))
    (by decide)

end Mirror

namespace Mirror

/-- C1 (amended): a run of the pipeline changes nothing — same site, zero
downloads, zero rewritten HTML/CSS/JS documents, exit code 0 — whenever its
input state is trigger-free, i.e. every asset URL still extractable from the
HTML has a missing-or-empty destination file and a (still-)failing fetch, no
document contains the broken-quoting host pattern, no HTML document contains
a nested local-assets trigger string, no stylesheet under `assets/` contains
a `url(assets/`-family form, every script is likewise free of the host
pattern, and every CSS/JS-discovered asset URL also fails.  A clean first
run leaves exactly such a state, so a second run then performs zero
additional downloads and zero additional rewrites; but a first run need not
leave a trigger-free state (see the counterexample), so idempotence as
originally stated fails. -/
theorem pipeline_fixed_point (net : Str → Option Str) (s : Site)
    (h0 : s.html ≠ [])
    (h1 : ∀ u ∈ assetUrlsOfHtml s.html,
      destNonEmpty s.assets (safe_filename_from_url u) = false ∧ net u = none)
    (h2 : ∀ f ∈ s.html, ¬ siteHost <:+: lowerStr f.2 ∧
      (∀ p ∈ nestedTriggerPairs, ¬ p.1 <:+: f.2))
    (h3 : ∀ n ∈ fileNamesWithSuffix ".css".toList s.assets,
      ¬ siteHost <:+: lowerStr (contentOf s.assets n) ∧
      ¬ "url(\"assets/".toList <:+: contentOf s.assets n ∧
      ¬ "url('assets/".toList <:+: contentOf s.assets n ∧
      ¬ "url(assets/".toList <:+: contentOf s.assets n)
    (h4 : ∀ n ∈ fileNamesWithSuffix ".js".toList s.assets,
      ¬ siteHost <:+: lowerStr (contentOf s.assets n))
    (h5 : ∀ u ∈ discoveredAssetUrls (fileNamesWithSuffix ".css".toList s.assets)
        (fileNamesWithSuffix ".js".toList s.assets) s.assets,
      destNonEmpty s.assets (safe_filename_from_url u) = false ∧ net u = none) :
    mirror_main net 2 true true s =
      (s, ⟨0, (assetUrlsOfHtml s.html).length, 0, (assetUrlsOfHtml s.html).length,
        0, 0, 0, []⟩) := by
  obtain ⟨shtml, sassets⟩ := s
  simp only [] at h0 h1 h2 h3 h4 h5
  have hfold1 : (assetUrlsOfHtml shtml).foldl (pass1Step net) ⟨sassets, [], 0, 0⟩ =
      ⟨sassets, [], 0, 0 + (assetUrlsOfHtml shtml).length⟩ :=
    pass1_all_fail _ _ _ _ h1
  have hfold2 : (discoveredAssetUrls (fileNamesWithSuffix ".css".toList sassets)
        (fileNamesWithSuffix ".js".toList sassets) sassets).foldl (pass5Step net)
        (⟨sassets, [], 0, 0 + (assetUrlsOfHtml shtml).length⟩ : DlState) =
      ⟨sassets, [], 0, 0 + (assetUrlsOfHtml shtml).length⟩ :=
    pass5_all_fail _ _ h5
  have hhtml := map_fst_filter_snd shtml (rewriteHtmlFile [])
    (fun f hf => rewriteHtmlFile_id (h2 f hf).1 (h2 f hf).2)
  have hcss := cssFold_id (fileNamesWithSuffix ".css".toList sassets) sassets 0 h3
  have hjs := jsFold_id (fileNamesWithSuffix ".js".toList sassets) sassets 0 h4
  rw [mirror_main, if_neg (by simp), if_neg (by simp), if_neg h0]
  simp only [hfold1, hfold2, List.map_nil, hhtml.1, hhtml.2, hcss, hjs]
  simp

/-- Counterexample to C1: on a site whose stylesheet contains a doubled
`assets/assets/` segment, the second run of the pipeline modifies the
stylesheet again (one more CSS rewrite), although the external content is
unchanged (every fetch fails in both runs) — so running the pipeline a
second time is not free of changes.  Both runs perform zero downloads, so
the rewrite half of the claim is what fails. -/
theorem pipeline_second_run_changes :
    (mirror_main (fun _ => none) 2 true true
        ((mirror_main (fun _ => none) 2 true true c1Site).1)).1 ≠
      (mirror_main (fun _ => none) 2 true true c1Site).1 ∧
    (mirror_main (fun _ => none) 2 true true
        ((mirror_main (fun _ => none) 2 true true c1Site).1)).2.rewrittenCss = 1 ∧
    (mirror_main (fun _ => none) 2 true true c1Site).2.downloaded = 0 ∧
    (mirror_main (fun _ => none) 2 true true
        ((mirror_main (fun _ => none) 2 true true c1Site).1)).2.downloaded = 0 := by
  exact ⟨by decide, by decide, by decide, by decide⟩

/-- Witness for C1 at a concrete trigger-free site: the run returns the site
unchanged with all counters zero. -/
theorem pipeline_fixed_point_witness :
    mirror_main (fun _ => none) 2 true true c1WitnessSite =
      (c1WitnessSite, ⟨0, 0, 0, 0, 0, 0, 0, []⟩) := by
  have h := pipeline_fixed_point (fun _ => none) c1WitnessSite (by decide)
    (by
      intro u hu
      have he : assetUrlsOfHtml c1WitnessSite.html = [] := by decide
      rw [he] at hu
      exact absurd hu (List.not_mem_nil u))
    (by decide) (by decide) (by decide)
    (by
      intro u hu
      have he : discoveredAssetUrls (fileNamesWithSuffix ".css".toList c1WitnessSite.assets)
          (fileNamesWithSuffix ".js".toList c1WitnessSite.assets) c1WitnessSite.assets = [] := by
        decide
      rw [he] at hu
      exact absurd hu (List.not_mem_nil u))
  rw [h]
  have he : assetUrlsOfHtml c1WitnessSite.html = [] := by decide
  rw [he]
  rfl

end Mirror
